import Mathlib

/-!
Verification of the PriceTax-AI extraction-and-reconciliation core.

Shallow embedding notes.
* Strings are modelled as `List Char` (`Str`); top-level repository
  functions keep their source names (`parseMoneyBR`, `applyGluedFix`,
  `pickTotal`, `sortPeriodLabels`, `filterOutliersForRankings`,
  `normalizeClassification`, `normalizeBase`,
  `computeTccKpisFromBase`, `parseContabilRowsFromText`).
* JavaScript numbers are modelled as exact rationals (`ℚ`).  All the
  numeric reasoning in the repository is about exact decimal readings
  of money tokens and comparisons against decimal constants, so the
  rational model is the faithful abstraction; `NaN`/`Infinity`
  (non-finite results of `Number(...)`) are modelled by `Option ℚ`
  being `none`.
* `String.prototype.normalize("NFD")` followed by stripping combining
  marks is modelled by a per-character diacritic table covering the
  Latin-1 letters that occur in Brazilian accounting documents,
  composed with removal of free-standing combining marks.
* `String.prototype.localeCompare` is modelled as code-point
  lexicographic comparison.
* JavaScript `Array.prototype.sort` (stable since ES2019) followed by
  taking element `[0]` is modelled by a first-wins fold computing the
  earliest minimum (resp. maximum) of the comparator.
-/

namespace PriceTax

abbrev Str := List Char

/-- JavaScript `\s` (whitespace) character class, restricted to the
code points that can actually reach the pipeline. -/
def jsWs (c : Char) : Bool :=
  c == ' ' || c == '\t' || c == '\n' || c == '\r' ||
  c.toNat == 11 || c.toNat == 12 || c.toNat == 0xa0 ||
  c.toNat == 0x2028 || c.toNat == 0x2029 || c.toNat == 0xfeff

/-- Drop leading JS whitespace. -/
def trimL (l : Str) : Str := l.dropWhile jsWs

/-- Drop trailing JS whitespace. -/
def trimR (l : Str) : Str := (l.reverse.dropWhile jsWs).reverse

/-- JavaScript `String.prototype.trim`. -/
def jsTrim (l : Str) : Str := trimR (trimL l)

/-- Replace each maximal run of whitespace by a single space
(the `replace(/\s+/g, " ")` idiom); the boolean records whether the
previous character was part of a whitespace run. -/
def collapseWsAux : Bool → Str → Str
  | _, [] => []
  | prevWs, c :: rest =>
    if jsWs c then
      if prevWs then collapseWsAux true rest
      else ' ' :: collapseWsAux true rest
    else c :: collapseWsAux false rest

def collapseWs (l : Str) : Str := collapseWsAux false l

/-- `cleanSpaces` from `contabilParser.ts`: collapse whitespace runs to
single spaces and trim.  (The source first rewrites ` ` to a plain
space, which is subsumed by `\s+` collapsing.) -/
def cleanSpaces (l : Str) : Str := jsTrim (collapseWs l)

/-- Uppercasing as performed by `String.prototype.toUpperCase`,
restricted to ASCII and Latin-1 letters. -/
def jsUpperChar (c : Char) : Char :=
  if 'a' ≤ c && c ≤ 'z' then Char.ofNat (c.toNat - 32)
  else if 0xe0 ≤ c.toNat && c.toNat ≤ 0xfe && c.toNat ≠ 0xf7 then Char.ofNat (c.toNat - 32)
  else c

/-- Diacritic removal: the composite of NFD decomposition and deletion
of combining marks, tabulated for the Latin-1 letters. -/
def stripDiacritic (c : Char) : Char :=
  match c.toNat with
  | 0xc0 | 0xc1 | 0xc2 | 0xc3 | 0xc4 | 0xc5 => 'A'
  | 0xc7 => 'C'
  | 0xc8 | 0xc9 | 0xca | 0xcb => 'E'
  | 0xcc | 0xcd | 0xce | 0xcf => 'I'
  | 0xd1 => 'N'
  | 0xd2 | 0xd3 | 0xd4 | 0xd5 | 0xd6 => 'O'
  | 0xd9 | 0xda | 0xdb | 0xdc => 'U'
  | 0xdd => 'Y'
  | 0xe0 | 0xe1 | 0xe2 | 0xe3 | 0xe4 | 0xe5 => 'a'
  | 0xe7 => 'c'
  | 0xe8 | 0xe9 | 0xea | 0xeb => 'e'
  | 0xec | 0xed | 0xee | 0xef => 'i'
  | 0xf1 => 'n'
  | 0xf2 | 0xf3 | 0xf4 | 0xf5 | 0xf6 => 'o'
  | 0xf9 | 0xfa | 0xfb | 0xfc => 'u'
  | 0xfd | 0xff => 'y'
  | _ => c

/-- Combining diacritical marks U+0300–U+036F (deleted by the
`replace(/[̀-ͯ]/g, "")` step). -/
def isCombining (c : Char) : Bool := 0x300 ≤ c.toNat && c.toNat ≤ 0x36f

/-- `normalizeTxt` / `normalizeText` from the repository: NFD, strip
combining marks, uppercase, collapse whitespace, trim. -/
def normalizeText (l : Str) : Str :=
  jsTrim (collapseWs (((l.map stripDiacritic).filter (fun c => !isCombining c)).map jsUpperChar))

/-- Whether `l` starts with `p` (JS `String.prototype.startsWith`). -/
def strStartsWith : Str → Str → Bool
  | _, [] => true
  | [], _ :: _ => false
  | c :: l, p :: ps => c == p && strStartsWith l ps

/-- Whether `l` ends with `p` (JS `String.prototype.endsWith`). -/
def strEndsWith (l p : Str) : Bool := strStartsWith l.reverse p.reverse

/-- Whether `p` occurs as a contiguous substring of `l`
(JS `String.prototype.includes`). -/
def strIncludes : Str → Str → Bool
  | [], p => p.isEmpty
  | c :: rest, p => strStartsWith (c :: rest) p || strIncludes rest p

def strIndexOfAux (p : Str) : Str → Nat → Option Nat
  | [], i => if p.isEmpty then some i else none
  | c :: rest, i =>
    if strStartsWith (c :: rest) p then some i else strIndexOfAux p rest (i + 1)

/-- JS `String.prototype.indexOf`: index of the first occurrence of
`p` in `l`, or `-1`. -/
def strIndexOf (l p : Str) : Int :=
  match strIndexOfAux p l 0 with
  | some n => (n : Int)
  | none => -1

/-- Numeric value of a decimal digit character. -/
def digitVal (c : Char) : Nat := c.toNat - '0'.toNat

/-- Value of a digit string read in base 10. -/
def natFromDigits (l : Str) : Nat := l.foldl (fun a c => a * 10 + digitVal c) 0

/-- Greedy split of the longest leading run of decimal digits. -/
def spanDigits : Str → Str × Str
  | [] => ([], [])
  | c :: rest =>
    if c.isDigit then
      let p := spanDigits rest
      (c :: p.1, p.2)
    else ([], c :: rest)

def hexVal (c : Char) : Option Nat :=
  if c.isDigit then some (digitVal c)
  else if 'a' ≤ c && c ≤ 'f' then some (c.toNat - 87)
  else if 'A' ≤ c && c ≤ 'F' then some (c.toNat - 55)
  else none

def radixDigits (radix : Nat) : Str → Option Nat → Option Nat
  | [], acc => acc
  | c :: rest, acc =>
    match hexVal c, acc with
    | some v, some a => if v < radix then radixDigits radix rest (some (a * radix + v)) else none
    | _, _ => none

/-- Non-decimal integer literal body accepted by JS `Number(...)`. -/
def jsRadix (radix : Nat) (l : Str) : Option ℚ :=
  match l with
  | [] => none
  | _ :: _ =>
    match radixDigits radix l (some 0) with
    | some n => some (n : ℚ)
    | none => none

/-- Exponent suffix of a JS decimal literal (`e`/`E`, optional sign,
one or more digits, and nothing after). -/
def jsExpSuffix (base : ℚ) : Str → Option ℚ
  | [] => some base
  | c :: rest =>
    if c == 'e' || c == 'E' then
      let signed : Str × Bool :=
        match rest with
        | '+' :: r => (r, false)
        | '-' :: r => (r, true)
        | r => (r, false)
      let p := spanDigits signed.1
      if p.1 = [] ∨ p.2 ≠ [] then none
      else
        let e : Int := (natFromDigits p.1 : Int)
        some (base * (10 : ℚ) ^ (if signed.2 then -e else e))
    else none

/-- Fractional digit string read as a rational in `[0,1)`. -/
def fracVal (l : Str) : ℚ := (natFromDigits l : ℚ) / (10 : ℚ) ^ l.length

/-- Decimal literal body accepted by JS `Number(...)` (after sign
splitting): `digits [. digits] [exp]`, `. digits [exp]`, or
`Infinity` (which is non-finite, hence `none` here). -/
def jsDecimal (l : Str) : Option ℚ :=
  if l = ('I' :: 'n' :: 'f' :: 'i' :: 'n' :: 'i' :: 't' :: 'y' :: []) then none
  else
    let ip := spanDigits l
    match ip.1, ip.2 with
    | [], '.' :: r2 =>
      let fp := spanDigits r2
      if fp.1 = [] then none
      else jsExpSuffix (fracVal fp.1) fp.2
    | [], _ => none
    | _ :: _, '.' :: r2 =>
      let fp := spanDigits r2
      jsExpSuffix ((natFromDigits ip.1 : ℚ) + fracVal fp.1) fp.2
    | _ :: _, rest => jsExpSuffix (natFromDigits ip.1 : ℚ) rest

/-- JS `Number(string)`: `some q` when the string converts to a finite
number, `none` when it converts to `NaN` or `±Infinity`. -/
def jsStrToNum (s : Str) : Option ℚ :=
  match jsTrim s with
  | [] => some 0
  | c :: rest =>
    if c = '+' then jsDecimal rest
    else if c = '-' then (jsDecimal rest).map Neg.neg
    else
      let t := c :: rest
      if strStartsWith t ('0' :: 'x' :: []) || strStartsWith t ('0' :: 'X' :: []) then
        jsRadix 16 (t.drop 2)
      else if strStartsWith t ('0' :: 'o' :: []) || strStartsWith t ('0' :: 'O' :: []) then
        jsRadix 8 (t.drop 2)
      else if strStartsWith t ('0' :: 'b' :: []) || strStartsWith t ('0' :: 'B' :: []) then
        jsRadix 2 (t.drop 2)
      else jsDecimal t

/-- The `{raw, value}` pair produced by the monetary token parser
(`MoneyBR` in `contabilParser.ts`). -/
structure MoneyQ where
  raw : Str
  value : ℚ
deriving DecidableEq

/-- Remove every occurrence of the listed characters
(the `replace(/[()]/g, "")`-style global character removals). -/
def removeAll (cs : List Char) (l : Str) : Str := l.filter (fun c => !(cs.contains c))

/-- Replace the first occurrence of character `a` by `b`
(JS `replace(",", ".")` with a plain string pattern). -/
def replaceFirstChar (a b : Char) : Str → Str
  | [] => []
  | c :: rest => if c == a then b :: rest else c :: replaceFirstChar a b rest

/-- The string handed to `Number(...)` inside `parseMoneyBR`: strip
parentheses and minus signs, trim, strip thousands dots, first comma
becomes the decimal dot. -/
def moneyNormalize (raw : Str) : Str :=
  replaceFirstChar ',' '.' (removeAll ('.' :: []) (jsTrim (removeAll ('(' :: ')' :: '-' :: []) raw)))

/-- Sign factor of `parseMoneyBR`: `-1` exactly when the cleaned token
is wrapped in parentheses, or ends with `-`, or starts with `-`
(the three independent `sign = -1` assignments of the source). -/
def moneySign (raw : Str) : ℚ :=
  if (strStartsWith raw ('(' :: []) && strEndsWith raw (')' :: [])) ||
      strEndsWith raw ('-' :: []) || strStartsWith raw ('-' :: []) then -1 else 1

/-- `parseMoneyBR` from `contabilParser.ts`: parse one Brazilian-locale
monetary token into a signed rational, `none` when the cleaned token is
empty or does not convert to a finite number. -/
def parseMoneyBR (token : Str) : Option MoneyQ :=
  if cleanSpaces token = [] then none
  else
    match jsStrToNum (moneyNormalize (cleanSpaces token)) with
    | none => none
    | some v => some ⟨cleanSpaces token, v * moneySign (cleanSpaces token)⟩

/-- A token of the Brazilian-locale money grammar
`\(?-?\d{1,3}(?:\.\d{3})*,\d{2}\)?-?` in structured form. -/
structure MoneyToken where
  openP : Bool
  leadMinus : Bool
  g0 : Str
  gs : List Str
  frac : Str
  closeP : Bool
  trailMinus : Bool

/-- Well-formedness of a structured money token: a leading group of one
to three digits, further groups of exactly three digits, a two-digit
fractional part. -/
def MoneyToken.wf (t : MoneyToken) : Prop :=
  t.g0 ≠ [] ∧ t.g0.length ≤ 3 ∧ (∀ c ∈ t.g0, c.isDigit) ∧
  (∀ g ∈ t.gs, g.length = 3 ∧ ∀ c ∈ g, c.isDigit) ∧
  t.frac.length = 2 ∧ (∀ c ∈ t.frac, c.isDigit)

/-- Rendering of a structured money token back to its text form. -/
def MoneyToken.render (t : MoneyToken) : Str :=
  (if t.openP then '(' :: [] else []) ++ (if t.leadMinus then '-' :: [] else []) ++
  t.g0 ++ (t.gs.map (fun g => '.' :: g)).flatten ++ (',' :: t.frac) ++
  (if t.closeP then ')' :: [] else []) ++ (if t.trailMinus then '-' :: [] else [])

/-- All integer digits of the token, thousands separators removed. -/
def MoneyToken.digits (t : MoneyToken) : Str := t.g0 ++ t.gs.flatten

/-- The unsigned reading of the token: integer digits, then the
two-digit fraction. -/
def MoneyToken.magnitude (t : MoneyToken) : ℚ :=
  (natFromDigits t.digits : ℚ) + (natFromDigits t.frac : ℚ) / 100

/-- The negativity condition of the claim, read off the rendered text:
parenthesized, or ends with `-`, or starts with `-`. -/
def MoneyToken.isNeg (t : MoneyToken) : Bool :=
  (strStartsWith t.render ('(' :: []) && strEndsWith t.render (')' :: [])) ||
  strEndsWith t.render ('-' :: []) || strStartsWith t.render ('-' :: [])

lemma moneySign_eq_isNeg (t : MoneyToken) :
    moneySign t.render = (if t.isNeg then (-1 : ℚ) else 1) := rfl

lemma isDigit_toNat_bounds {c : Char} (h : c.isDigit = true) :
    48 ≤ c.toNat ∧ c.toNat ≤ 57 := by
  simp [Char.isDigit, Char.le_def, Char.toNat] at h
  exact ⟨h.1, h.2⟩

lemma jsWs_of_isDigit {c : Char} (h : c.isDigit = true) : jsWs c = false := by
  obtain ⟨h1, h2⟩ := isDigit_toNat_bounds h
  simp only [jsWs, Bool.or_eq_false_iff, beq_eq_false_iff_ne, ne_eq]
  refine ⟨⟨⟨⟨⟨⟨⟨⟨⟨?_, ?_⟩, ?_⟩, ?_⟩, ?_⟩, ?_⟩, ?_⟩, ?_⟩, ?_⟩, ?_⟩ <;>
    first
      | (intro hc; subst hc; revert h1 h2; decide)
      | omega

/-- Characters that can appear in a rendered money token. -/
def moneyChar (c : Char) : Prop :=
  c.isDigit = true ∨ c = '(' ∨ c = ')' ∨ c = '-' ∨ c = ',' ∨ c = '.'

lemma jsWs_of_moneyChar {c : Char} (h : moneyChar c) : jsWs c = false := by
  rcases h with h | h | h | h | h | h
  · exact jsWs_of_isDigit h
  all_goals subst h; decide

lemma dropWhile_jsWs_of_noWs {l : Str} (h : ∀ c ∈ l, jsWs c = false) :
    l.dropWhile jsWs = l := by
  cases l with
  | nil => rfl
  | cons c rest => simp [List.dropWhile_cons, h c (by simp)]

lemma jsTrim_of_noWs {l : Str} (h : ∀ c ∈ l, jsWs c = false) : jsTrim l = l := by
  unfold jsTrim trimL trimR
  rw [dropWhile_jsWs_of_noWs h, dropWhile_jsWs_of_noWs (by
    intro c hc
    exact h c (by simpa using hc)), List.reverse_reverse]

lemma collapseWsAux_of_noWs {l : Str} (b : Bool) (h : ∀ c ∈ l, jsWs c = false) :
    collapseWsAux b l = l := by
  induction l generalizing b with
  | nil => rfl
  | cons c rest ih =>
    have hc := h c (by simp)
    simp [collapseWsAux, hc, ih false (fun d hd => h d (by simp [hd]))]

lemma cleanSpaces_of_noWs {l : Str} (h : ∀ c ∈ l, jsWs c = false) :
    cleanSpaces l = l := by
  unfold cleanSpaces collapseWs
  rw [collapseWsAux_of_noWs false h, jsTrim_of_noWs h]

lemma render_chars {t : MoneyToken} (h : t.wf) : ∀ c ∈ t.render, moneyChar c := by
  obtain ⟨-, -, hg0, hgs, -, hfrac⟩ := h
  intro c hc
  simp only [MoneyToken.render, List.append_assoc, List.mem_append] at hc
  rcases hc with hc | hc | hc | hc | hc | hc
  · rcases t.openP <;> simp_all [moneyChar]
  · rcases t.leadMinus <;> simp_all [moneyChar]
  · exact Or.inl (hg0 c hc)
  · simp only [List.mem_flatten, List.mem_map] at hc
    obtain ⟨l, ⟨g, hg, rfl⟩, hcl⟩ := hc
    simp only [List.mem_cons] at hcl
    rcases hcl with rfl | hcl
    · simp [moneyChar]
    · exact Or.inl ((hgs g hg).2 c hcl)
  · simp only [List.mem_cons] at hc
    rcases hc with rfl | hc
    · simp [moneyChar]
    · exact Or.inl (hfrac c hc)
  · rcases hc with hc | hc
    · rcases t.closeP <;> simp_all [moneyChar]
    · rcases t.trailMinus <;> simp_all [moneyChar]

lemma render_ne_nil {t : MoneyToken} (h : t.wf) : t.render ≠ [] := by
  obtain ⟨hg0, -⟩ := h
  simp only [MoneyToken.render, List.append_assoc]
  intro hcontra
  rcases List.append_eq_nil.mp hcontra with ⟨-, h2⟩
  rcases List.append_eq_nil.mp h2 with ⟨-, h3⟩
  rcases List.append_eq_nil.mp h3 with ⟨h4, -⟩
  exact hg0 h4

lemma removeAll_eq_self {cs : List Char} {l : Str} (h : ∀ c ∈ l, c ∉ cs) :
    removeAll cs l = l := by
  unfold removeAll
  refine List.filter_eq_self.mpr fun c hc => ?_
  simpa using h c hc

lemma spanDigits_all {l : Str} (h : ∀ c ∈ l, c.isDigit = true) :
    spanDigits l = (l, []) := by
  induction l with
  | nil => rfl
  | cons c rest ih =>
    simp only [spanDigits, h c (by simp), if_true,
      ih (fun d hd => h d (by simp [hd]))]

lemma spanDigits_append_dot {ip fp : Str} (h : ∀ c ∈ ip, c.isDigit = true) :
    spanDigits (ip ++ '.' :: fp) = (ip, '.' :: fp) := by
  induction ip with
  | nil => simp [spanDigits]
  | cons c rest ih =>
    have hrest := ih (fun d hd => h d (by simp [hd]))
    simp only [List.cons_append, spanDigits, h c (by simp), if_true]
    rw [List.append_eq, hrest]

lemma replaceFirstChar_append_comma {ip fp : Str} (h : ∀ c ∈ ip, c ≠ ',') :
    replaceFirstChar ',' '.' (ip ++ ',' :: fp) = ip ++ '.' :: fp := by
  induction ip with
  | nil => simp [replaceFirstChar]
  | cons c rest ih =>
    have hc : (c == ',') = false := by simpa using h c (by simp)
    simp only [List.cons_append, replaceFirstChar, hc, Bool.false_eq_true, if_false]
    rw [List.append_eq, ih (fun d hd => h d (by simp [hd]))]

lemma isDigit_ne {c d : Char} (h : c.isDigit = true) (hd : d.isDigit = false) : c ≠ d := by
  intro hcontra
  subst hcontra
  simp [h] at hd

lemma startsWith_radix_false {c2 : Char} (hc2d : c2.isDigit = false) (hc2dot : c2 ≠ '.')
    {ip fp : Str} (h : ∀ c ∈ ip, c.isDigit = true) :
    strStartsWith (ip ++ '.' :: fp) ('0' :: c2 :: []) = false := by
  cases ip with
  | nil =>
    simp only [List.nil_append, strStartsWith, Bool.and_eq_false_iff]
    exact Or.inl (by decide)
  | cons c ip' =>
    simp only [List.cons_append, strStartsWith]
    cases ip' with
    | nil =>
      simp only [List.nil_append, strStartsWith, Bool.and_eq_false_iff]
      refine Or.inr (Or.inl ?_)
      simpa using fun hcontra => absurd hcontra.symm hc2dot
    | cons d ip'' =>
      simp only [List.cons_append, strStartsWith, Bool.and_eq_false_iff]
      refine Or.inr (Or.inl ?_)
      have hdmem : d ∈ c :: d :: ip'' := List.mem_cons_of_mem c (List.mem_cons_self d ip'')
      simpa using isDigit_ne (h d hdmem) hc2d

/-- Evaluation of `Number(...)` on a string of shape
`digits.digits` (nonempty integer part, all-digit fraction). -/
lemma jsStrToNum_digitsDot {ip fp : Str} (h1 : ip ≠ [])
    (h2 : ∀ c ∈ ip, c.isDigit = true) (h3 : ∀ c ∈ fp, c.isDigit = true) :
    jsStrToNum (ip ++ '.' :: fp) = some ((natFromDigits ip : ℚ) + fracVal fp) := by
  obtain ⟨c, ip', rfl⟩ : ∃ c ip', ip = c :: ip' := by
    cases ip with
    | nil => exact absurd rfl h1
    | cons c ip' => exact ⟨c, ip', rfl⟩
  have hc : c.isDigit = true := h2 c (by simp)
  have hnoWs : ∀ d ∈ (c :: ip') ++ '.' :: fp, jsWs d = false := by
    intro d hd
    simp only [List.mem_append, List.mem_cons] at hd
    rcases hd with (rfl | hd) | rfl | hd
    · exact jsWs_of_isDigit hc
    · exact jsWs_of_isDigit (h2 d (List.mem_cons_of_mem c hd))
    · decide
    · exact jsWs_of_isDigit (h3 d hd)
  have hplus : c ≠ '+' := isDigit_ne hc (by decide)
  have hminus : c ≠ '-' := isDigit_ne hc (by decide)
  have hI : ((c :: ip') ++ '.' :: fp) ≠
      ('I' :: 'n' :: 'f' :: 'i' :: 'n' :: 'i' :: 't' :: 'y' :: []) := by
    intro hcontra
    have : c = 'I' := by simpa using congrArg (fun l => l.headD ' ') hcontra
    exact isDigit_ne hc (by decide) this
  have hx := fun c2 hd hdot =>
    @startsWith_radix_false c2 hd hdot (c :: ip') fp h2
  have hspan : spanDigits (c :: (ip' ++ '.' :: fp)) = (c :: ip', '.' :: fp) := by
    have h0 := @spanDigits_append_dot (c :: ip') fp h2
    simpa [List.cons_append] using h0
  simp only [List.cons_append] at hx hI
  unfold jsStrToNum
  rw [jsTrim_of_noWs hnoWs]
  simp only [List.cons_append, if_neg hplus, if_neg hminus]
  rw [hx 'x' (by decide) (by decide), hx 'X' (by decide) (by decide),
    hx 'o' (by decide) (by decide), hx 'O' (by decide) (by decide),
    hx 'b' (by decide) (by decide), hx 'B' (by decide) (by decide)]
  simp only [Bool.or_self, Bool.false_eq_true, if_false]
  unfold jsDecimal
  rw [if_neg hI]
  simp only [hspan, spanDigits_all h3]
  rfl

/-- Evaluating the money-token normalisation on a rendered
well-formed token yields the plain `digits.fraction` string. -/
lemma moneyNormalize_render {t : MoneyToken} (h : t.wf) :
    moneyNormalize t.render = t.digits ++ '.' :: t.frac := by
  obtain ⟨hg0ne, -, hg0, hgs, -, hfrac⟩ := h
  unfold moneyNormalize
  have step1 : removeAll ('(' :: ')' :: '-' :: []) t.render =
      t.g0 ++ (t.gs.map (fun g => '.' :: g)).flatten ++ (',' :: t.frac) := by
    unfold MoneyToken.render removeAll
    simp only [List.filter_append]
    have hdig : ∀ {l : Str}, (∀ c ∈ l, c.isDigit = true) →
        List.filter (fun c => !(('(' :: ')' :: '-' :: []).contains c)) l = l := by
      intro l hl
      refine List.filter_eq_self.mpr fun c hc => ?_
      have := hl c hc
      have h1 : c ≠ '(' := isDigit_ne this (by decide)
      have h2 : c ≠ ')' := isDigit_ne this (by decide)
      have h3 : c ≠ '-' := isDigit_ne this (by decide)
      simp [h1, h2, h3]
    have hflat : List.filter (fun c => !(('(' :: ')' :: '-' :: []).contains c))
        ((t.gs.map (fun g => '.' :: g)).flatten) =
        (t.gs.map (fun g => '.' :: g)).flatten := by
      refine List.filter_eq_self.mpr fun c hc => ?_
      simp only [List.mem_flatten, List.mem_map] at hc
      obtain ⟨l, ⟨g, hg, rfl⟩, hcl⟩ := hc
      simp only [List.mem_cons] at hcl
      rcases hcl with rfl | hcl
      · decide
      · have := (hgs g hg).2 c hcl
        have h1 : c ≠ '(' := isDigit_ne this (by decide)
        have h2 : c ≠ ')' := isDigit_ne this (by decide)
        have h3 : c ≠ '-' := isDigit_ne this (by decide)
        simp [h1, h2, h3]
    have hcomma : List.filter (fun c => !(('(' :: ')' :: '-' :: []).contains c))
        (',' :: t.frac) = ',' :: t.frac := by
      refine List.filter_eq_self.mpr fun c hc => ?_
      simp only [List.mem_cons] at hc
      rcases hc with rfl | hc
      · decide
      · have := hfrac c hc
        have h1 : c ≠ '(' := isDigit_ne this (by decide)
        have h2 : c ≠ ')' := isDigit_ne this (by decide)
        have h3 : c ≠ '-' := isDigit_ne this (by decide)
        simp [h1, h2, h3]
    rw [hdig hg0, hflat, hcomma]
    rcases t.openP <;> rcases t.leadMinus <;> rcases t.closeP <;> rcases t.trailMinus <;>
      simp [List.filter]
  rw [step1]
  have hmid : ∀ c ∈ t.g0 ++ (t.gs.map (fun g => '.' :: g)).flatten ++ (',' :: t.frac),
      jsWs c = false := by
    intro c hc
    simp only [List.mem_append, List.mem_cons, List.mem_flatten, List.mem_map] at hc
    rcases hc with (hc | ⟨l, ⟨g, hg, rfl⟩, hcl⟩) | (rfl | hc)
    · exact jsWs_of_isDigit (hg0 c hc)
    · simp only [List.mem_cons] at hcl
      rcases hcl with rfl | hcl
      · decide
      · exact jsWs_of_isDigit ((hgs g hg).2 c hcl)
    · decide
    · exact jsWs_of_isDigit (hfrac c hc)
  rw [jsTrim_of_noWs hmid]
  have step2 : removeAll ('.' :: []) (t.g0 ++ (t.gs.map (fun g => '.' :: g)).flatten ++
      (',' :: t.frac)) = t.digits ++ (',' :: t.frac) := by
    unfold removeAll
    simp only [List.filter_append]
    have hg0f : List.filter (fun c => !(('.' :: []).contains c)) t.g0 = t.g0 := by
      refine List.filter_eq_self.mpr fun c hc => ?_
      simp [isDigit_ne (hg0 c hc) (by decide : ('.' : Char).isDigit = false)]
    have hfracf : List.filter (fun c => !(('.' :: []).contains c)) (',' :: t.frac) =
        ',' :: t.frac := by
      refine List.filter_eq_self.mpr fun c hc => ?_
      simp only [List.mem_cons] at hc
      rcases hc with rfl | hc
      · decide
      · simp [isDigit_ne (hfrac c hc) (by decide : ('.' : Char).isDigit = false)]
    have hflatf : List.filter (fun c => !(('.' :: []).contains c))
        ((t.gs.map (fun g => '.' :: g)).flatten) = t.gs.flatten := by
      have hgen : ∀ gs : List Str, (∀ g ∈ gs, ∀ c ∈ g, c.isDigit = true) →
          List.filter (fun c => !(('.' :: []).contains c))
            ((gs.map (fun g => '.' :: g)).flatten) = gs.flatten := by
        intro gs
        induction gs with
        | nil => intro _; rfl
        | cons g rest ih =>
          intro hall
          simp only [List.map_cons, List.flatten_cons, List.filter_append, List.filter_cons]
          have : List.filter (fun c => !(('.' :: []).contains c)) g = g := by
            refine List.filter_eq_self.mpr fun c hc => ?_
            simp [isDigit_ne (hall g (by simp) c hc) (by decide : ('.' : Char).isDigit = false)]
          simp only [show (!(('.' :: []).contains '.')) = false by decide,
            Bool.false_eq_true, if_false]
          rw [this, ih (fun g' hg' => hall g' (by simp [hg']))]
      exact hgen t.gs (fun g hg => (hgs g hg).2)
    rw [hg0f, hfracf, hflatf, MoneyToken.digits, List.append_assoc]
  rw [step2]
  have hnocomma : ∀ c ∈ t.digits, c ≠ ',' := by
    intro c hc
    simp only [MoneyToken.digits, List.mem_append, List.mem_flatten] at hc
    rcases hc with hc | ⟨g, hg, hcl⟩
    · exact isDigit_ne (hg0 c hc) (by decide)
    · exact isDigit_ne ((hgs g hg).2 c hcl) (by decide)
  exact replaceFirstChar_append_comma hnocomma

/-- C1: the monetary token parser `parseMoneyBR` is total (a Lean
function, mirroring that the source never throws) and sign-correct:
every token of the Brazilian-locale money grammar parses to the value
whose magnitude reads the digits with `.` as thousands separator
and `,` as two-digit decimal separator, negated exactly when the token
is parenthesized, ends with `-`, or starts with `-`; and any token
whose normalised digit string does not convert to a finite number
yields `none` ("no value"). -/
theorem claim_C1_parseMoneyBR :
    (∀ t : MoneyToken, t.wf →
      parseMoneyBR t.render =
        some ⟨t.render, (if t.isNeg then (-1 : ℚ) else 1) * t.magnitude⟩) ∧
    (∀ s : Str, jsStrToNum (moneyNormalize (cleanSpaces s)) = none →
      parseMoneyBR s = none) := by
  constructor
  · intro t h
    have hne := render_ne_nil h
    have hclean : cleanSpaces t.render = t.render :=
      cleanSpaces_of_noWs (fun c hc => jsWs_of_moneyChar (render_chars h c hc))
    have hdigne : t.digits ≠ [] := by
      simp only [MoneyToken.digits]
      intro hcontra
      exact h.1 (List.append_eq_nil.mp hcontra).1
    have hdig : ∀ c ∈ t.digits, c.isDigit = true := by
      intro c hc
      simp only [MoneyToken.digits, List.mem_append, List.mem_flatten] at hc
      rcases hc with hc | ⟨g, hg, hcl⟩
      · exact h.2.2.1 c hc
      · exact (h.2.2.2.1 g hg).2 c hcl
    have hfr : ∀ c ∈ t.frac, c.isDigit = true := h.2.2.2.2.2
    have hlen : t.frac.length = 2 := h.2.2.2.2.1
    unfold parseMoneyBR
    rw [hclean, if_neg hne, moneyNormalize_render h, jsStrToNum_digitsDot hdigne hdig hfr]
    refine congrArg some (congrArg (MoneyQ.mk t.render) ?_)
    rw [moneySign_eq_isNeg, mul_comm, MoneyToken.magnitude, fracVal, hlen]
    norm_num
  · intro s hnone
    unfold parseMoneyBR
    split
    · rfl
    · rw [hnone]

/-- Witness for C1: the grammar token `1.234,56` parses to `1234.56`. -/
theorem claim_C1_parseMoneyBR_witness :
    parseMoneyBR ('1' :: '.' :: '2' :: '3' :: '4' :: ',' :: '5' :: '6' :: []) =
      some ⟨'1' :: '.' :: '2' :: '3' :: '4' :: ',' :: '5' :: '6' :: [], (123456 : ℚ) / 100⟩ := by
  have h := claim_C1_parseMoneyBR.1
    ⟨false, false, '1' :: [], ('2' :: '3' :: '4' :: []) :: [], '5' :: '6' :: [], false, false⟩
    (by unfold MoneyToken.wf; decide)
  have e1 : MoneyToken.render
      ⟨false, false, '1' :: [], ('2' :: '3' :: '4' :: []) :: [], '5' :: '6' :: [], false, false⟩ =
      '1' :: '.' :: '2' :: '3' :: '4' :: ',' :: '5' :: '6' :: [] := by decide
  have hneg : MoneyToken.isNeg
      ⟨false, false, '1' :: [], ('2' :: '3' :: '4' :: []) :: [], '5' :: '6' :: [], false, false⟩ =
      false := by decide
  have hdg : natFromDigits (MoneyToken.digits
      ⟨false, false, '1' :: [], ('2' :: '3' :: '4' :: []) :: [], '5' :: '6' :: [], false, false⟩) =
      1234 := by decide
  have hfr : natFromDigits ('5' :: '6' :: []) = 56 := by decide
  rw [e1] at h
  rw [MoneyToken.magnitude, hdg, hneg] at h
  rw [show natFromDigits (MoneyToken.frac
      ⟨false, false, '1' :: [], ('2' :: '3' :: '4' :: []) :: [], '5' :: '6' :: [], false, false⟩) =
      56 from hfr] at h
  simpa using h.trans (by norm_num)

/-- The `"ATIVO" | "PASSIVO"` title argument of the magnitude-fix
functions. -/
inductive Title where
  | ATIVO
  | PASSIVO
deriving DecidableEq

/-- `applyGluedFix` from `kpiEngine.ts`: correct a glued-digit
magnitude artifact on a candidate balance total.  The float constants
`1e-9`, `0.2` are modelled as exact rationals.  The source's
sequential `if … return` blocks are encoded as a chain of
conditionals; a band test whose inner guard fails falls through to the
remaining tests exactly as in the source. -/
def applyGluedFix (title : Title) (raw : ℚ) (ativoTotal : ℚ) : ℚ :=
  if |raw| < 1 / 1000000000 then 0
  else
    let sign : ℚ := if raw < 0 then -1 else 1
    let n := |raw|
    match title with
    | Title.ATIVO =>
      if 10000000 ≤ n ∧ n < 20000000 ∧ 0 < n - 10000000 ∧ n - 10000000 < 9999999999 then
        sign * (n - 10000000)
      else raw
    | Title.PASSIVO =>
      let ativo := |ativoTotal|
      if 30000000 ≤ n ∧ n < 40000000 ∧
          (ativo = 0 ∨ (ativo * (2 / 10) < n / 10 ∧ n / 10 < ativo * 5)) then
        sign * (n / 10)
      else if 0 < ativo ∧ max (ativo * 20) 200000000 < n then 0
      else if ativo = 0 ∧ 1000000000 < n then 0
      else if 20000000 ≤ n ∧ n < 30000000 ∧ 0 < n - 20000000 ∧ n - 20000000 < 50000000 then
        sign * (n - 20000000)
      else if 10000000 ≤ n ∧ n < 20000000 ∧ 0 < n - 10000000 ∧ n - 10000000 < 50000000 then
        sign * (n - 10000000)
      else raw

/-- `applyGluedFixFromText` from `exactTruth.ts`: the copy of the
magnitude fix used by the PDF-text total extractor (identical except
for the missing upper caps on the corrected value). -/
def applyGluedFixFromText (title : Title) (raw : ℚ) (ativoTotal : ℚ) : ℚ :=
  if |raw| < 1 / 1000000000 then 0
  else
    let sign : ℚ := if raw < 0 then -1 else 1
    let n := |raw|
    match title with
    | Title.ATIVO =>
      if 10000000 ≤ n ∧ n < 20000000 ∧ 0 < n - 10000000 then sign * (n - 10000000)
      else raw
    | Title.PASSIVO =>
      let ativo := |ativoTotal|
      if 30000000 ≤ n ∧ n < 40000000 ∧
          (ativo = 0 ∨ (ativo * (2 / 10) < n / 10 ∧ n / 10 < ativo * 5)) then
        sign * (n / 10)
      else if 0 < ativo ∧ max (ativo * 20) 200000000 < n then 0
      else if ativo = 0 ∧ 1000000000 < n then 0
      else if 20000000 ≤ n ∧ n < 30000000 ∧ 0 < n - 20000000 then sign * (n - 20000000)
      else if 10000000 ≤ n ∧ n < 20000000 ∧ 0 < n - 10000000 then sign * (n - 10000000)
      else raw

/-- C2 counterexample: the claim fails at the left band edge and at
sub-`1e-9` values.  At exactly `10,000,000` both fix functions return
the input unchanged (the corrected value `0` fails the `fixed > 0`
guard), not `|v| − 10,000,000 = 0`; and the tiny value `1e-10`, which
lies outside the band, is clamped to `0` rather than returned
unchanged. -/
theorem claim_C2_counterexample :
    applyGluedFix Title.ATIVO 10000000 0 = 10000000 ∧
    applyGluedFixFromText Title.ATIVO 10000000 0 = 10000000 ∧
    (10000000 : ℚ) ≠ |(10000000 : ℚ)| - 10000000 ∧
    applyGluedFix Title.ATIVO (1 / 10000000000) 0 = 0 ∧
    ((1 : ℚ) / 10000000000) ≠ 0 := by
  refine ⟨?_, ?_, by norm_num, ?_, by norm_num⟩
  · unfold applyGluedFix
    norm_num
  · unfold applyGluedFixFromText
    norm_num
  · unfold applyGluedFix
    rw [if_pos (by rw [abs_of_pos (by norm_num : (0 : ℚ) < 1 / 10000000000)]; norm_num)]

/-- C2 (amended): the assets magnitude fix subtracts exactly
`10,000,000` for `|v|` strictly between `10,000,000` and `20,000,000`,
keeping the sign of `v`; at `|v| = 10,000,000` exactly and at every
other value with `|v| ≥ 1e-9` the input is returned unchanged; values
with `|v| < 1e-9` are clamped to `0`.  Both copies of the fix agree. -/
theorem claim_C2_applyGluedFix_ativo (v a a' : ℚ) :
    (10000000 < |v| → |v| < 20000000 →
      applyGluedFix Title.ATIVO v a = (if v < 0 then (-1 : ℚ) else 1) * (|v| - 10000000) ∧
      applyGluedFixFromText Title.ATIVO v a' =
        (if v < 0 then (-1 : ℚ) else 1) * (|v| - 10000000)) ∧
    (1 / 1000000000 ≤ |v| → ¬(10000000 < |v| ∧ |v| < 20000000) →
      applyGluedFix Title.ATIVO v a = v ∧ applyGluedFixFromText Title.ATIVO v a' = v) ∧
    (|v| < 1 / 1000000000 →
      applyGluedFix Title.ATIVO v a = 0 ∧ applyGluedFixFromText Title.ATIVO v a' = 0) := by
  refine ⟨fun h1 h2 => ⟨?_, ?_⟩, fun h1 h2 => ⟨?_, ?_⟩, fun h1 => ⟨?_, ?_⟩⟩
  · unfold applyGluedFix
    simp only []
    rw [if_neg (by linarith : ¬(|v| < 1 / 1000000000)),
      if_pos ⟨by linarith, h2, by linarith, by linarith⟩]
  · unfold applyGluedFixFromText
    simp only []
    rw [if_neg (by linarith : ¬(|v| < 1 / 1000000000)),
      if_pos ⟨by linarith, h2, by linarith⟩]
  · unfold applyGluedFix
    simp only []
    rw [if_neg (by linarith : ¬(|v| < 1 / 1000000000)),
      if_neg (fun hC => h2 ⟨by linarith [hC.2.2.1], hC.2.1⟩)]
  · unfold applyGluedFixFromText
    simp only []
    rw [if_neg (by linarith : ¬(|v| < 1 / 1000000000)),
      if_neg (fun hC => h2 ⟨by linarith [hC.2.2], hC.2.1⟩)]
  · unfold applyGluedFix
    rw [if_pos h1]
  · unfold applyGluedFixFromText
    rw [if_pos h1]

/-- Witness for C2: an assets candidate of `14,532,100` corrects to
`4,532,100`, through both copies of the fix. -/
theorem claim_C2_applyGluedFix_ativo_witness :
    applyGluedFix Title.ATIVO 14532100 0 = 4532100 ∧
    applyGluedFixFromText Title.ATIVO 14532100 0 = 4532100 := by
  have h := (claim_C2_applyGluedFix_ativo 14532100 0 0).1 (by norm_num) (by norm_num)
  norm_num at h
  exact h

lemma trimR_eq_rdropWhile (m : Str) : trimR m = List.rdropWhile jsWs m := rfl

lemma jsTrim_idem (l : Str) : jsTrim (jsTrim l) = jsTrim l := by
  have h1 : trimL (jsTrim l) = jsTrim l := by
    show List.dropWhile jsWs (List.rdropWhile jsWs (List.dropWhile jsWs l)) =
      List.rdropWhile jsWs (List.dropWhile jsWs l)
    rw [List.dropWhile_eq_self_iff]
    intro hl
    obtain ⟨t, ht⟩ := List.rdropWhile_prefix jsWs (List.dropWhile jsWs l)
    have hlen : 0 < (List.dropWhile jsWs l).length := by
      rw [← ht, List.length_append]
      omega
    have hne : List.dropWhile jsWs l ≠ [] := List.ne_nil_of_length_pos hlen
    have hget : (List.rdropWhile jsWs (List.dropWhile jsWs l)).get ⟨0, hl⟩ =
        (List.dropWhile jsWs l).get ⟨0, hlen⟩ := by
      have h2 := @List.getElem_append_left Char 0
        (List.rdropWhile jsWs (List.dropWhile jsWs l)) t hl
        (by rw [List.length_append]; omega)
      simp only [ht] at h2
      simp only [List.get_eq_getElem]
      exact h2.symm
    rw [hget]
    have hhd := List.head_dropWhile_not jsWs l hne
    rw [List.head_eq_getElem_zero hne] at hhd
    simpa [List.get_eq_getElem] using hhd
  show trimR (trimL (trimR (trimL l))) = trimR (trimL l)
  have : trimL (trimR (trimL l)) = trimR (trimL l) := h1
  rw [this, trimR_eq_rdropWhile, trimR_eq_rdropWhile]
  exact List.rdropWhile_idempotent jsWs (trimL l)

/-- Root-of-plan characters `1`, `2`, `3` (the `[1-3]` character class). -/
def isRoot13 (c : Char) : Bool := c == '1' || c == '2' || c == '3'

/-- Anchored test for `^[1-3]\.\d` (already-dotted classification). -/
def matchDotted (l : Str) : Bool :=
  match l with
  | a :: '.' :: c :: _ => isRoot13 a && c.isDigit
  | _ => false

/-- Anchored match for `^([1-3])(\d)(\d)\.(\d+)$` (three digits glued
before the first dot). -/
def matchFused3 (l : Str) : Option (Char × Char × Char × Str) :=
  match l with
  | a :: b :: c :: '.' :: ds =>
    if isRoot13 a && b.isDigit && c.isDigit && !ds.isEmpty && ds.all Char.isDigit then
      some (a, b, c, ds)
    else none
  | _ => none

/-- Anchored match for `^([1-3])(\d)(\d)(\d)$` (bare four-digit fused
classification). -/
def matchFused4 (l : Str) : Option (Char × Char × Char × Char) :=
  match l with
  | a :: b :: c :: d :: [] =>
    if isRoot13 a && b.isDigit && c.isDigit && d.isDigit then some (a, b, c, d) else none
  | _ => none

/-- Anchored test for `^[1-3]$`. -/
def matchBare (l : Str) : Bool :=
  match l with
  | a :: [] => isRoot13 a
  | _ => false

/-- `normalizeClassification` from `normalizeBase.ts`: canonicalize a
classification code to dotted form, never inventing content.  The
`^[1-3]$` branch and the final fallthrough both return the trimmed
input, as in the source. -/
def normalizeClassification (input : Str) : Str :=
  if jsTrim input = [] then []
  else if matchDotted (jsTrim input) then jsTrim input
  else
    match matchFused3 (jsTrim input) with
    | some (a, b, c, ds) => a :: '.' :: b :: '.' :: c :: '.' :: ds
    | none =>
      match matchFused4 (jsTrim input) with
      | some (a, b, c, d) => a :: '.' :: b :: '.' :: c :: '.' :: d :: []
      | none => if matchBare (jsTrim input) then jsTrim input else jsTrim input

/-- The copy of `normalizeClassification` in `kpiEngine.ts`, which
omits the (behaviourally redundant) bare `^[1-3]$` passthrough. -/
def normalizeClassificationKpi (input : Str) : Str :=
  if jsTrim input = [] then []
  else if matchDotted (jsTrim input) then jsTrim input
  else
    match matchFused3 (jsTrim input) with
    | some (a, b, c, ds) => a :: '.' :: b :: '.' :: c :: '.' :: ds
    | none =>
      match matchFused4 (jsTrim input) with
      | some (a, b, c, d) => a :: '.' :: b :: '.' :: c :: '.' :: d :: []
      | none => jsTrim input

lemma isRoot13_isDigit {a : Char} (h : isRoot13 a = true) : a.isDigit = true := by
  simp only [isRoot13, Bool.or_eq_true, beq_iff_eq] at h
  rcases h with (rfl | rfl) | rfl <;> decide

lemma matchFused3_some_inv {raw : Str} {a b c : Char} {ds : Str}
    (h : matchFused3 raw = some (a, b, c, ds)) :
    raw = a :: b :: c :: '.' :: ds ∧ isRoot13 a = true ∧ b.isDigit = true ∧
      c.isDigit = true ∧ ds ≠ [] ∧ (∀ x ∈ ds, x.isDigit = true) := by
  unfold matchFused3 at h
  split at h
  next a' b' c' ds' =>
    split_ifs at h with hcond
    · simp only [Option.some.injEq, Prod.mk.injEq] at h
      obtain ⟨ha, hb, hc, hd⟩ := h
      subst ha; subst hb; subst hc; subst hd
      simp only [Bool.and_eq_true] at hcond
      refine ⟨rfl, hcond.1.1.1.1, hcond.1.1.1.2, hcond.1.1.2, ?_, ?_⟩
      · have := hcond.1.2
        simpa [List.isEmpty_iff] using this
      · exact fun x hx => List.all_eq_true.mp hcond.2 x hx
  next => exact absurd h (by simp)

lemma matchFused4_some_inv {raw : Str} {a b c d : Char}
    (h : matchFused4 raw = some (a, b, c, d)) :
    raw = a :: b :: c :: d :: [] ∧ isRoot13 a = true ∧ b.isDigit = true ∧
      c.isDigit = true ∧ d.isDigit = true := by
  unfold matchFused4 at h
  split at h
  next a' b' c' d' =>
    split_ifs at h with hcond
    · simp only [Option.some.injEq, Prod.mk.injEq] at h
      obtain ⟨ha, hb, hc, hd⟩ := h
      subst ha; subst hb; subst hc; subst hd
      simp only [Bool.and_eq_true] at hcond
      exact ⟨rfl, hcond.1.1.1, hcond.1.1.2, hcond.1.2, hcond.2⟩
  next => exact absurd h (by simp)

/-- A canonical dotted output `a.b.c.ds` is left fixed by trimming. -/
lemma jsTrim_canon {a b c : Char} {ds : Str} (ha : isRoot13 a = true)
    (hb : b.isDigit = true) (hc : c.isDigit = true) (hds : ∀ x ∈ ds, x.isDigit = true) :
    jsTrim (a :: '.' :: b :: '.' :: c :: '.' :: ds) =
      a :: '.' :: b :: '.' :: c :: '.' :: ds := by
  have hnoWs : ∀ x ∈ a :: '.' :: b :: '.' :: c :: '.' :: ds, jsWs x = false := by
    intro x hx
    simp only [List.mem_cons] at hx
    rcases hx with rfl | rfl | rfl | rfl | rfl | rfl | hx
    · exact jsWs_of_isDigit (isRoot13_isDigit ha)
    · decide
    · exact jsWs_of_isDigit hb
    · decide
    · exact jsWs_of_isDigit hc
    · decide
    · exact jsWs_of_isDigit (hds x hx)
  exact jsTrim_of_noWs hnoWs

/-- Normalizing an input whose trimmed form is already dotted returns
that trimmed form unchanged. -/
lemma normalizeClassification_dotted_fix {v : Str} (htrim : jsTrim v = v)
    (hdot : matchDotted v = true) : normalizeClassification v = v := by
  have hne : v ≠ [] := by
    intro hv
    rw [hv] at hdot
    exact absurd hdot (by decide)
  unfold normalizeClassification
  rw [htrim, if_neg hne, if_pos hdot]

/-- Normalization fixes the canonical dotted output shape. -/
lemma normalizeClassification_canon_fix {a b c : Char} {ds : Str} (ha : isRoot13 a = true)
    (hb : b.isDigit = true) (hc : c.isDigit = true) (hds : ∀ x ∈ ds, x.isDigit = true) :
    normalizeClassification (a :: '.' :: b :: '.' :: c :: '.' :: ds) =
      a :: '.' :: b :: '.' :: c :: '.' :: ds := by
  refine normalizeClassification_dotted_fix (jsTrim_canon ha hb hc hds) ?_
  show (isRoot13 a && b.isDigit) = true
  rw [ha, hb]
  rfl

/-- The KPI-engine copy of the normalizer agrees with the
`normalizeBase` copy pointwise (the bare `^[1-3]$` branch is dead). -/
lemma normalizeClassificationKpi_eq (s : Str) :
    normalizeClassificationKpi s = normalizeClassification s := by
  unfold normalizeClassification normalizeClassificationKpi
  by_cases h0 : jsTrim s = []
  · rw [if_pos h0, if_pos h0]
  · rw [if_neg h0, if_neg h0]
    by_cases h1 : matchDotted (jsTrim s) = true
    · rw [if_pos h1, if_pos h1]
    · rw [if_neg h1, if_neg h1]
      rcases h2 : matchFused3 (jsTrim s) with - | ⟨a, b, c, ds⟩
      · simp only [h2]
        rcases h3 : matchFused4 (jsTrim s) with - | ⟨a, b, c, d⟩
        · simp only [h3, ite_self]
        · simp only [h3]
      · simp only [h2]

/-- Idempotence of the `normalizeBase` copy. -/
lemma normalizeClassification_idem (s : Str) :
    normalizeClassification (normalizeClassification s) = normalizeClassification s := by
  by_cases h0 : jsTrim s = []
  · have hfs : normalizeClassification s = [] := by
      unfold normalizeClassification
      rw [if_pos h0]
    rw [hfs]
    rfl
  · by_cases h1 : matchDotted (jsTrim s) = true
    · have hfs : normalizeClassification s = jsTrim s := by
        unfold normalizeClassification
        rw [if_neg h0, if_pos h1]
      rw [hfs]
      exact normalizeClassification_dotted_fix (jsTrim_idem s) h1
    · rcases h2 : matchFused3 (jsTrim s) with - | ⟨a, b, c, ds⟩
      · rcases h3 : matchFused4 (jsTrim s) with - | ⟨a, b, c, d⟩
        · have hfs : normalizeClassification s = jsTrim s := by
            unfold normalizeClassification
            rw [if_neg h0, if_neg h1]
            simp only [h2, h3, ite_self]
          rw [hfs]
          unfold normalizeClassification
          rw [jsTrim_idem s, if_neg h0, if_neg h1]
          simp only [h2, h3, ite_self]
        · obtain ⟨-, ha, hb, hc, hd⟩ := matchFused4_some_inv h3
          have hfs : normalizeClassification s =
              a :: '.' :: b :: '.' :: c :: '.' :: d :: [] := by
            unfold normalizeClassification
            rw [if_neg h0, if_neg h1]
            simp only [h2, h3]
          rw [hfs]
          exact normalizeClassification_canon_fix ha hb hc
            (by intro x hx; simp only [List.mem_singleton] at hx; rwa [hx])
      · obtain ⟨-, ha, hb, hc, -, hds⟩ := matchFused3_some_inv h2
        have hfs : normalizeClassification s = a :: '.' :: b :: '.' :: c :: '.' :: ds := by
          unfold normalizeClassification
          rw [if_neg h0, if_neg h1]
          simp only [h2]
        rw [hfs]
        exact normalizeClassification_canon_fix ha hb hc hds

/-- C8: classification normalization is idempotent — normalizing an
already-normalized value returns it unchanged, for the copy in
`normalizeBase.ts` and for the copy in the KPI engine. -/
theorem claim_C8_normalizeClassification_idempotent :
    (∀ s : Str, normalizeClassification (normalizeClassification s) =
      normalizeClassification s) ∧
    (∀ s : Str, normalizeClassificationKpi (normalizeClassificationKpi s) =
      normalizeClassificationKpi s) := by
  refine ⟨normalizeClassification_idem, fun s => ?_⟩
  rw [normalizeClassificationKpi_eq, normalizeClassificationKpi_eq,
    normalizeClassification_idem]

/-- The four macro-group tags `"ATIVO" | "PASSIVO" | "DRE" | "OUTROS"`. -/
inductive Group where
  | ATIVO
  | PASSIVO
  | DRE
  | OUTROS
deriving DecidableEq

/-- A JavaScript value as it can appear in the loosely-typed monetary
columns of a `NormalizedBaseRow` (`any` in the source): `null`, a
number, a string, or the `{raw, value}` money object produced by the
line parser. -/
inductive JSVal where
  | jnull : JSVal
  | jnum : ℚ → JSVal
  | jstr : Str → JSVal
  | jmoney : MoneyQ → JSVal
deriving DecidableEq

/-- `NormalizedBaseRow` from `normalizeBase.ts`. -/
structure NormalizedBaseRow where
  period : Str
  year : Option Int
  classification : Option Str
  code : Option Str
  description : Option Str
  group : Option Group
  saldoAtual : JSVal
  saldoAnterior : JSVal
  debito : JSVal
  credito : JSVal
  rawLine : Option Str
deriving DecidableEq

/-- `numFromAny` from `kpiEngine.ts` / `analyzeEngine.ts`: accepts a
number, a numeric string, or an object carrying a numeric `value`
field; everything else reads as `0`. -/
def numFromAny : JSVal → ℚ
  | JSVal.jnull => 0
  | JSVal.jnum q => q
  | JSVal.jstr s => (jsStrToNum s).getD 0
  | JSVal.jmoney m => m.value

/-- JS `Number(v)` on a loosely-typed value; `none` models `NaN`.
An object (the `{raw, value}` pair) coerces via its string form
`"[object Object]"`, hence `NaN`. -/
def jsNumberCoerce : JSVal → Option ℚ
  | JSVal.jnull => some 0
  | JSVal.jnum q => some q
  | JSVal.jstr s => jsStrToNum s
  | JSVal.jmoney _ => none

/-- `safeNumber` from `analyzeEngine.ts`: plain `Number(...)` coercion
with non-finite results clamped to `0`. -/
def safeNumber (v : JSVal) : ℚ := (jsNumberCoerce v).getD 0

/-- The `getSaldo` reading used by `filterOutliersForRankings` in
`exactTruth.ts`: `Number(r?.saldoAtual ?? 0)` clamped to `0` when not
finite. -/
def getSaldo (r : NormalizedBaseRow) : ℚ := (jsNumberCoerce r.saldoAtual).getD 0

/-- The per-row keep test of the `ativoTotal > 0` branch of
`filterOutliersForRankings` (`1.05` and the guards as exact
rationals; `billionGuard` is `Infinity` when `ativoTotal` is at least
`200,000,000`, which the final conditional encodes). -/
def keepRow (ativoTotal : ℚ) (r : NormalizedBaseRow) : Bool :=
  if |getSaldo r| ≤ 0 then false
  else if ativoTotal * (105 / 100) < |getSaldo r| then false
  else if ativoTotal < 200000000 ∧ 1000000000 ≤ |getSaldo r| then false
  else true

/-- `filterOutliersForRankings` from `exactTruth.ts`. -/
def filterOutliersForRankings (rows : List NormalizedBaseRow) (ativoTotal : ℚ) :
    List NormalizedBaseRow :=
  if ativoTotal ≤ 0 then rows.filter (fun r => |getSaldo r| < 1000000000000)
  else rows.filter (keepRow ativoTotal)

lemma keepRow_iff {ativoTotal : ℚ} {r : NormalizedBaseRow} :
    keepRow ativoTotal r = true ↔
      0 < |getSaldo r| ∧ |getSaldo r| ≤ ativoTotal * (105 / 100) ∧
      (ativoTotal < 200000000 → |getSaldo r| < 1000000000) := by
  unfold keepRow
  split_ifs with h1 h2 h3
  · simp only [false_iff]
    intro hc
    exact absurd hc.1 (by linarith)
  · simp only [false_iff]
    intro hc
    exact absurd hc.2.1 (by linarith)
  · simp only [false_iff]
    intro hc
    exact absurd (hc.2.2 h3.1) (by linarith [h3.2])
  · simp only [true_iff]
    refine ⟨by linarith, by linarith, fun hA => ?_⟩
    by_contra hcontra
    exact h3 ⟨hA, by linarith⟩

/-- C5: with a known positive assets total `A`, the outlier filter
never retains a reading exceeding `1.05 × A`, drops zero readings, and
additionally drops readings at or above `1e9` when `A < 200,000,000`;
with `A = 0` (unknown) it retains exactly the rows whose reading is
below `1e12`. -/
theorem claim_C5_filterOutliersForRankings (rows : List NormalizedBaseRow) (A : ℚ) :
    (0 < A →
      ∀ r ∈ filterOutliersForRankings rows A,
        |getSaldo r| ≤ A * (105 / 100) ∧ getSaldo r ≠ 0 ∧
        (A < 200000000 → |getSaldo r| < 1000000000)) ∧
    (A = 0 →
      ∀ r, r ∈ filterOutliersForRankings rows A ↔
        r ∈ rows ∧ |getSaldo r| < 1000000000000) := by
  constructor
  · intro hA r hr
    unfold filterOutliersForRankings at hr
    rw [if_neg (by linarith)] at hr
    obtain ⟨-, hkeep⟩ := List.mem_filter.mp hr
    obtain ⟨h1, h2, h3⟩ := keepRow_iff.mp hkeep
    exact ⟨h2, fun hz => by rw [hz] at h1; simp at h1, h3⟩
  · intro hA r
    subst hA
    unfold filterOutliersForRankings
    rw [if_pos le_rfl]
    rw [List.mem_filter]
    simp only [decide_eq_true_eq]

/-- Witness for C5: with `A = 1000`, a row reading `2000` (exceeding
`1.05 × A`) is dropped, and with `A = 0` a row reading `5` is kept. -/
theorem claim_C5_filterOutliersForRankings_witness :
    (∀ r ∈ filterOutliersForRankings
        (⟨[], none, none, none, none, none, JSVal.jnum 2000, JSVal.jnull, JSVal.jnull,
          JSVal.jnull, none⟩ :: []) 1000,
      |getSaldo r| ≤ 1000 * (105 / 100) ∧ getSaldo r ≠ 0 ∧
      ((1000 : ℚ) < 200000000 → |getSaldo r| < 1000000000)) ∧
    ((⟨[], none, none, none, none, none, JSVal.jnum 5, JSVal.jnull, JSVal.jnull,
        JSVal.jnull, none⟩ : NormalizedBaseRow) ∈
      filterOutliersForRankings
        (⟨[], none, none, none, none, none, JSVal.jnum 5, JSVal.jnull, JSVal.jnull,
          JSVal.jnull, none⟩ :: []) 0 ↔
      (⟨[], none, none, none, none, none, JSVal.jnum 5, JSVal.jnull, JSVal.jnull,
        JSVal.jnull, none⟩ : NormalizedBaseRow) ∈
        (⟨[], none, none, none, none, none, JSVal.jnum 5, JSVal.jnull, JSVal.jnull,
          JSVal.jnull, none⟩ :: []) ∧
      |getSaldo ⟨[], none, none, none, none, none, JSVal.jnum 5, JSVal.jnull, JSVal.jnull,
        JSVal.jnull, none⟩| < 1000000000000) := by
  constructor
  · exact (claim_C5_filterOutliersForRankings _ 1000).1 (by norm_num)
  · exact (claim_C5_filterOutliersForRankings _ 0).2 rfl _

/-- JS `Math.round(n * 100) / 100` (`brRound` with 2 digits):
`Math.round` is floor of `x + 0.5`. -/
def brRound (n : ℚ) : ℚ := (⌊n * 100 + 1 / 2⌋ : ℚ) / 100

/-- `String(x ?? "")` on an optional string. -/
def strOfOpt (o : Option Str) : Str := o.getD []

/-- `groupFromClassification` from `analyzeEngine.ts` (its local
normalizer copy is behaviourally the KPI-engine one — the extra
`^[1-3]\.0$` branch returns the input unchanged, like the final
fallthrough). -/
def groupFromClassificationA (clsRaw : Option Str) : Group :=
  let cls := normalizeClassificationKpi (strOfOpt clsRaw)
  if cls = ('1' :: []) ∨ cls = ('1' :: '.' :: '0' :: []) ∨
      strStartsWith cls ('1' :: '.' :: []) = true then Group.ATIVO
  else if cls = ('2' :: []) ∨ cls = ('2' :: '.' :: '0' :: []) ∨
      strStartsWith cls ('2' :: '.' :: []) = true then Group.PASSIVO
  else if cls = ('3' :: []) ∨ cls = ('3' :: '.' :: '0' :: []) ∨
      strStartsWith cls ('3' :: '.' :: []) = true then Group.DRE
  else Group.OUTROS

/-- One entry of the `topSaldosAtivo` / `topSaldosPassivo` rankings. -/
structure RankEntry where
  code : Option Str
  description : Option Str
  value : ℚ
  period : Str
deriving DecidableEq

/-- The body of the ranking loop in `computeFromBalancetes`
(`analyzeEngine.ts`): skip zero readings, skip rows whose uppercased
description contains `TOTAL`, then emit an entry when the
classification-derived group matches. -/
def rankingPush (period : Str) (grp : Group) (r : NormalizedBaseRow) : Option RankEntry :=
  if safeNumber r.saldoAtual = 0 then none
  else if strIncludes ((strOfOpt r.description).map jsUpperChar)
      ('T' :: 'O' :: 'T' :: 'A' :: 'L' :: []) then none
  else if groupFromClassificationA r.classification = grp then
    some ⟨r.code, r.description, brRound (safeNumber r.saldoAtual), period⟩
  else none

/-- Candidates pushed into one period's top-balance ranking for one
group: the outlier filter followed by the ranking-loop body. -/
def topCandidates (grp : Group) (period : Str) (rows : List NormalizedBaseRow)
    (ativoTotal : ℚ) : List RankEntry :=
  (filterOutliersForRankings rows ativoTotal).filterMap (rankingPush period grp)

/-- `mkKey` from `analyzeEngine.ts`. -/
def mkKey (code desc : Option Str) : Str :=
  let c := jsTrim (strOfOpt code)
  let d := (jsTrim (strOfOpt desc)).map jsUpperChar
  if c ≠ [] then ('C' :: ':' :: []) ++ c ++ ('|' :: 'D' :: ':' :: []) ++ d
  else ('D' :: ':' :: []) ++ d

/-- One period's contributions to the period-over-period variance map:
for every row surviving the outlier filter, the `(key, rounded
reading)` pair recorded under `prev.values[f.period]`. -/
def varianceEntries (period : Str) (rows : List NormalizedBaseRow) (ativoTotal : ℚ) :
    List (Str × ℚ) :=
  (filterOutliersForRankings rows ativoTotal).map
    (fun r => (mkKey r.code r.description, brRound (safeNumber r.saldoAtual)))

/-- Whether a loosely-typed column value is the parser's `{raw, value}`
money object. -/
def isMoneyObj : JSVal → Bool
  | JSVal.jmoney _ => true
  | _ => false

lemma getSaldo_of_moneyObj {r : NormalizedBaseRow} (h : isMoneyObj r.saldoAtual = true) :
    getSaldo r = 0 := by
  unfold getSaldo jsNumberCoerce
  cases hv : r.saldoAtual <;> simp_all [isMoneyObj]

lemma keepRow_not_moneyObj {A : ℚ} {r : NormalizedBaseRow} (h : keepRow A r = true) :
    isMoneyObj r.saldoAtual = false := by
  by_contra hc
  have hm : isMoneyObj r.saldoAtual = true := by
    cases hv : isMoneyObj r.saldoAtual
    · exact absurd hv hc
    · rfl
  have h0 := getSaldo_of_moneyObj hm
  have := (keepRow_iff.mp h).1
  rw [h0] at this
  simp at this

lemma filterOutliers_moneyObj_erase {rows : List NormalizedBaseRow} {A : ℚ} (hA : 0 < A) :
    filterOutliersForRankings rows A =
      filterOutliersForRankings (rows.filter (fun r => !isMoneyObj r.saldoAtual)) A := by
  unfold filterOutliersForRankings
  rw [if_neg (by linarith), if_neg (by linarith), List.filter_filter]
  refine List.filter_congr fun r _ => ?_
  cases hk : keepRow A r
  · simp
  · simp [keepRow_not_moneyObj hk]

/-- C10 (implicit): the ranking pipeline reads `saldoAtual` with plain
`Number(...)` coercion, which yields `0` for the parser's `{raw,
value}` objects; consequently, for a period with positive assets
total, the outlier filter drops every object-valued row, and both the
top-balance candidates and the variance-map entries are unchanged if
the object-valued rows are removed beforehand — their numeric value is
never incorporated. -/
theorem claim_C10_object_rows_never_ranked :
    (∀ m : MoneyQ, jsNumberCoerce (JSVal.jmoney m) = none ∧
      safeNumber (JSVal.jmoney m) = 0) ∧
    (∀ (rows : List NormalizedBaseRow) (A : ℚ), 0 < A →
      ∀ r ∈ rows, isMoneyObj r.saldoAtual = true →
        r ∉ filterOutliersForRankings rows A) ∧
    (∀ (grp : Group) (period : Str) (rows : List NormalizedBaseRow) (A : ℚ), 0 < A →
      topCandidates grp period rows A =
        topCandidates grp period (rows.filter (fun r => !isMoneyObj r.saldoAtual)) A ∧
      varianceEntries period rows A =
        varianceEntries period (rows.filter (fun r => !isMoneyObj r.saldoAtual)) A) := by
  refine ⟨fun m => ⟨rfl, rfl⟩, ?_, ?_⟩
  · intro rows A hA r _ hm hmem
    unfold filterOutliersForRankings at hmem
    rw [if_neg (by linarith)] at hmem
    exact absurd (keepRow_not_moneyObj (List.mem_filter.mp hmem).2) (by simp [hm])
  · intro grp period rows A hA
    unfold topCandidates varianceEntries
    rw [← filterOutliers_moneyObj_erase hA]
    exact ⟨rfl, rfl⟩

/-- Witness for C10: with assets total `1000`, a row whose
`saldoAtual` is the money object `{raw: "5,00", value: 5}` is dropped
by the filter, and removing it leaves the ranking candidates
unchanged. -/
theorem claim_C10_object_rows_never_ranked_witness :
    (⟨[], none, none, none, none, none, JSVal.jmoney ⟨[], 5⟩, JSVal.jnull, JSVal.jnull,
      JSVal.jnull, none⟩ : NormalizedBaseRow) ∉
      filterOutliersForRankings
        (⟨[], none, none, none, none, none, JSVal.jmoney ⟨[], 5⟩, JSVal.jnull, JSVal.jnull,
          JSVal.jnull, none⟩ :: []) 1000 ∧
    topCandidates Group.ATIVO []
        (⟨[], none, none, none, none, none, JSVal.jmoney ⟨[], 5⟩, JSVal.jnull, JSVal.jnull,
          JSVal.jnull, none⟩ :: []) 1000 =
      topCandidates Group.ATIVO []
        ((⟨[], none, none, none, none, none, JSVal.jmoney ⟨[], 5⟩, JSVal.jnull, JSVal.jnull,
          JSVal.jnull, none⟩ :: []).filter (fun r => !isMoneyObj r.saldoAtual)) 1000 := by
  constructor
  · exact claim_C10_object_rows_never_ranked.2.1 _ 1000 (by norm_num) _ (by simp) rfl
  · exact (claim_C10_object_rows_never_ranked.2.2 Group.ATIVO [] _ 1000 (by norm_num)).1

/-- The `kind` tag of `parsePeriod` in `analyzeEngine.ts`. -/
inductive PKind where
  | y
  | q
  | m
  | raw
deriving DecidableEq

/-- The record `{kind, y, n}` returned by `parsePeriod`. -/
structure PParsed where
  kind : PKind
  y : Nat
  n : Nat
deriving DecidableEq

/-- Match of `/T\s*(\d)\s*\/\s*(\d{4})/i` anchored at the start of the
given suffix. -/
def matchQuarterAt (l : Str) : Option (Nat × Nat) :=
  match l with
  | c :: rest =>
    if c == 'T' || c == 't' then
      match rest.dropWhile jsWs with
      | d :: r2 =>
        if d.isDigit then
          match r2.dropWhile jsWs with
          | '/' :: r4 =>
            match r4.dropWhile jsWs with
            | y1 :: y2 :: y3 :: y4 :: _ =>
              if y1.isDigit && y2.isDigit && y3.isDigit && y4.isDigit then
                some (digitVal d, natFromDigits (y1 :: y2 :: y3 :: y4 :: []))
              else none
            | _ => none
          | _ => none
        else none
      | _ => none
    else none
  | [] => none

/-- Leftmost match of the quarter pattern anywhere in the string. -/
def searchQuarter : Str → Option (Nat × Nat)
  | [] => none
  | c :: rest =>
    match matchQuarterAt (c :: rest) with
    | some r => some r
    | none => searchQuarter rest

/-- Anchored match of `/^(\d{4})-(\d{2})$/`. -/
def matchYM (l : Str) : Option (Nat × Nat) :=
  match l with
  | y1 :: y2 :: y3 :: y4 :: '-' :: m1 :: m2 :: [] =>
    if y1.isDigit && y2.isDigit && y3.isDigit && y4.isDigit && m1.isDigit && m2.isDigit then
      some (natFromDigits (y1 :: y2 :: y3 :: y4 :: []), natFromDigits (m1 :: m2 :: []))
    else none
  | _ => none

/-- Anchored match of `/^(\d{4})$/`. -/
def matchY (l : Str) : Option Nat :=
  match l with
  | y1 :: y2 :: y3 :: y4 :: [] =>
    if y1.isDigit && y2.isDigit && y3.isDigit && y4.isDigit then
      some (natFromDigits (y1 :: y2 :: y3 :: y4 :: []))
    else none
  | _ => none

/-- `parsePeriod` from `analyzeEngine.ts`. -/
def parsePeriod (p : Str) : PParsed :=
  let s := jsTrim p
  match searchQuarter s with
  | some r => ⟨PKind.q, r.2, r.1⟩
  | none =>
    match matchYM s with
    | some r => ⟨PKind.m, r.1, r.2⟩
    | none =>
      match matchY s with
      | some y => ⟨PKind.y, y, 0⟩
      | none => ⟨PKind.raw, 0, 0⟩

/-- `orderKind` from `sortPeriodLabels`: years before quarters before
months, unparsed labels last. -/
def orderKind : PKind → Nat
  | PKind.y => 1
  | PKind.q => 2
  | PKind.m => 3
  | PKind.raw => 9

/-- The sort comparator of `sortPeriodLabels` as a boolean "a is
before-or-equal b": kind order, then year, then index, then the raw
label (`localeCompare` modelled as code-point order). -/
def periodCmpLe (a b : Str × PParsed) : Bool :=
  if orderKind a.2.kind < orderKind b.2.kind then true
  else if orderKind b.2.kind < orderKind a.2.kind then false
  else if a.2.y < b.2.y then true
  else if b.2.y < a.2.y then false
  else if a.2.n < b.2.n then true
  else if b.2.n < a.2.n then false
  else decide (a.1 ≤ b.1)

/-- `sortPeriodLabels` from `analyzeEngine.ts`: parse every label,
return the input unchanged when no label parses, otherwise stable-sort
by the comparator (JS `Array.prototype.sort` is stable; any stable
sort computes the same list, here insertion sort). -/
def sortPeriodLabels (labels : List Str) : List Str :=
  if (labels.map (fun raw => (raw, parsePeriod raw))).any
      (fun x => !(x.2.kind == PKind.raw)) then
    (List.insertionSort (fun a b => periodCmpLe a b = true)
      (labels.map (fun raw => (raw, parsePeriod raw)))).map Prod.fst
  else labels

/-- The total preorder that `sortPeriodLabels` actually sorts by:
year < quarter < month < unparsed, then chronologically by
`(year, index)`, ties broken by the raw label. -/
def periodLeProp (a b : Str × PParsed) : Prop :=
  orderKind a.2.kind < orderKind b.2.kind ∨
  (orderKind a.2.kind = orderKind b.2.kind ∧
    (a.2.y < b.2.y ∨ (a.2.y = b.2.y ∧
      (a.2.n < b.2.n ∨ (a.2.n = b.2.n ∧ a.1 ≤ b.1)))))

lemma periodCmpLe_iff (a b : Str × PParsed) :
    periodCmpLe a b = true ↔ periodLeProp a b := by
  unfold periodCmpLe periodLeProp
  split_ifs with h1 h2 h3 h4 h5 h6
  · simp only [true_iff]
    exact Or.inl h1
  · simp only [false_iff]
    intro hp
    rcases hp with h | ⟨e, -⟩ <;> omega
  · simp only [true_iff]
    exact Or.inr ⟨by omega, Or.inl h3⟩
  · simp only [false_iff]
    intro hp
    rcases hp with h | ⟨e, h | ⟨e2, -⟩⟩ <;> omega
  · simp only [true_iff]
    exact Or.inr ⟨by omega, Or.inr ⟨by omega, Or.inl h5⟩⟩
  · simp only [false_iff]
    intro hp
    rcases hp with h | ⟨e, h | ⟨e2, h | ⟨e3, -⟩⟩⟩ <;> omega
  · simp only [decide_eq_true_eq]
    constructor
    · intro hle
      exact Or.inr ⟨by omega, Or.inr ⟨by omega, Or.inr ⟨by omega, hle⟩⟩⟩
    · intro hp
      rcases hp with h | ⟨e, h | ⟨e2, h | ⟨e3, hle⟩⟩⟩
      · omega
      · omega
      · omega
      · exact hle

lemma periodCmpLe_trans (a b c : Str × PParsed) (h1 : periodCmpLe a b = true)
    (h2 : periodCmpLe b c = true) : periodCmpLe a c = true := by
  rw [periodCmpLe_iff] at *
  unfold periodLeProp at *
  rcases h1 with h1 | ⟨e1, h1⟩
  · rcases h2 with h2 | ⟨e2, -⟩
    · exact Or.inl (by omega)
    · exact Or.inl (by omega)
  · rcases h2 with h2 | ⟨e2, h2⟩
    · exact Or.inl (by omega)
    · refine Or.inr ⟨by omega, ?_⟩
      rcases h1 with h1 | ⟨f1, h1⟩
      · rcases h2 with h2 | ⟨f2, -⟩
        · exact Or.inl (by omega)
        · exact Or.inl (by omega)
      · rcases h2 with h2 | ⟨f2, h2⟩
        · exact Or.inl (by omega)
        · refine Or.inr ⟨by omega, ?_⟩
          rcases h1 with h1 | ⟨g1, h1⟩
          · rcases h2 with h2 | ⟨g2, -⟩
            · exact Or.inl (by omega)
            · exact Or.inl (by omega)
          · rcases h2 with h2 | ⟨g2, h2⟩
            · exact Or.inl (by omega)
            · exact Or.inr ⟨by omega, le_trans h1 h2⟩

lemma periodLeProp_total (a b : Str × PParsed) : periodLeProp a b ∨ periodLeProp b a := by
  unfold periodLeProp
  rcases lt_trichotomy (orderKind a.2.kind) (orderKind b.2.kind) with hk | hk | hk
  · exact Or.inl (Or.inl hk)
  · rcases lt_trichotomy a.2.y b.2.y with hy | hy | hy
    · exact Or.inl (Or.inr ⟨hk, Or.inl hy⟩)
    · rcases lt_trichotomy a.2.n b.2.n with hn | hn | hn
      · exact Or.inl (Or.inr ⟨hk, Or.inr ⟨hy, Or.inl hn⟩⟩)
      · rcases le_total a.1 b.1 with hle | hle
        · exact Or.inl (Or.inr ⟨hk, Or.inr ⟨hy, Or.inr ⟨hn, hle⟩⟩⟩)
        · exact Or.inr (Or.inr ⟨hk.symm, Or.inr ⟨hy.symm, Or.inr ⟨hn.symm, hle⟩⟩⟩)
      · exact Or.inr (Or.inr ⟨hk.symm, Or.inr ⟨hy.symm, Or.inl hn⟩⟩)
    · exact Or.inr (Or.inr ⟨hk.symm, Or.inl hy⟩)
  · exact Or.inr (Or.inl hk)

lemma periodCmpLe_total (a b : Str × PParsed) :
    (periodCmpLe a b || periodCmpLe b a) = true := by
  rw [Bool.or_eq_true]
  rcases periodLeProp_total a b with h | h
  · exact Or.inl ((periodCmpLe_iff a b).mpr h)
  · exact Or.inr ((periodCmpLe_iff b a).mpr h)

/-- C4 counterexample: the claim's order puts unparsed labels first
and lex-sorts all-unparsed inputs, but the code puts unparsed labels
last (`orderKind` 9) and returns an all-unparsed list unchanged:
`["2023","ABC"]` stays `["2023","ABC"]` (claim predicts
`["ABC","2023"]`), and `["B","A"]` stays `["B","A"]` (claim predicts
`["A","B"]`). -/
theorem claim_C4_counterexample :
    sortPeriodLabels (("2023".toList) :: ("ABC".toList) :: []) =
      ("2023".toList) :: ("ABC".toList) :: [] ∧
    sortPeriodLabels (("2023".toList) :: ("ABC".toList) :: []) ≠
      ("ABC".toList) :: ("2023".toList) :: [] ∧
    sortPeriodLabels (("B".toList) :: ("A".toList) :: []) =
      ("B".toList) :: ("A".toList) :: [] ∧
    sortPeriodLabels (("B".toList) :: ("A".toList) :: []) ≠
      ("A".toList) :: ("B".toList) :: [] := by
  refine ⟨by decide, by decide, by decide, by decide⟩

/-- C4 (amended): `sortPeriodLabels` permutes its input and, whenever
at least one label parses, sorts it by the total order year < quarter
< month-by-`(year, index)` < unparsed, ties broken by the raw label;
when no label parses the input order is returned unchanged. -/
theorem claim_C4_sortPeriodLabels (labels : List Str) :
    (sortPeriodLabels labels).Perm labels ∧
    ((∃ l ∈ labels, (parsePeriod l).kind ≠ PKind.raw) →
      (sortPeriodLabels labels).Pairwise
        (fun a b => periodLeProp (a, parsePeriod a) (b, parsePeriod b))) ∧
    ((∀ l ∈ labels, (parsePeriod l).kind = PKind.raw) →
      sortPeriodLabels labels = labels) := by
  have hmapfst : (labels.map (fun raw => (raw, parsePeriod raw))).map Prod.fst = labels := by
    rw [List.map_map]
    exact List.map_id'' (fun _ => rfl) labels
  haveI instTot : IsTotal (Str × PParsed) (fun a b => periodCmpLe a b = true) :=
    ⟨fun a b => (Bool.or_eq_true _ _).mp (periodCmpLe_total a b)⟩
  haveI instTrans : IsTrans (Str × PParsed) (fun a b => periodCmpLe a b = true) :=
    ⟨periodCmpLe_trans⟩
  refine ⟨?_, ?_, ?_⟩
  · unfold sortPeriodLabels
    split_ifs with hany
    · have hperm := List.perm_insertionSort (fun a b => periodCmpLe a b = true)
        (labels.map (fun raw => (raw, parsePeriod raw)))
      have hmapped := hperm.map Prod.fst
      rwa [hmapfst] at hmapped
    · exact List.Perm.refl labels
  · intro hex
    unfold sortPeriodLabels
    have hany : (labels.map (fun raw => (raw, parsePeriod raw))).any
        (fun x => !(x.2.kind == PKind.raw)) = true := by
      rw [List.any_eq_true]
      obtain ⟨l, hl, hk⟩ := hex
      exact ⟨(l, parsePeriod l), List.mem_map_of_mem _ hl, by simpa using hk⟩
    rw [if_pos hany]
    have hsorted := List.sorted_insertionSort (fun a b => periodCmpLe a b = true)
      (labels.map (fun raw => (raw, parsePeriod raw)))
    have hmem : ∀ x ∈ List.insertionSort (fun a b => periodCmpLe a b = true)
        (labels.map (fun raw => (raw, parsePeriod raw))),
        x.2 = parsePeriod x.1 := by
      intro x hx
      have hx' := (List.mem_insertionSort (fun a b => periodCmpLe a b = true)).mp hx
      obtain ⟨raw, -, rfl⟩ := List.mem_map.mp hx'
      rfl
    have hS : (List.insertionSort (fun a b => periodCmpLe a b = true)
        (labels.map (fun raw => (raw, parsePeriod raw)))).Pairwise
        (fun x y => periodLeProp (x.1, parsePeriod x.1) (y.1, parsePeriod y.1)) := by
      refine List.Pairwise.imp_of_mem ?_ hsorted
      intro x y hx hy hr
      have hx2 : (x.1, parsePeriod x.1) = x := by
        rw [← hmem x hx]
      have hy2 : (y.1, parsePeriod y.1) = y := by
        rw [← hmem y hy]
      rw [hx2, hy2]
      exact (periodCmpLe_iff x y).mp hr
    exact List.pairwise_map.mpr hS
  · intro hall
    unfold sortPeriodLabels
    rw [if_neg ?hcond]
    case hcond =>
      rw [List.any_eq_true]
      rintro ⟨x, hx, hk⟩
      obtain ⟨raw, hraw, rfl⟩ := List.mem_map.mp hx
      exact absurd (hall raw hraw) (by simpa using hk)

/-- Witness for C4: the spec's mixed example sorts to
`["2023","T1/2024","T2/2024","2024-03"]`, pairwise ordered by the
amended total order ("2023" parses, discharging the hypothesis). -/
theorem claim_C4_sortPeriodLabels_witness :
    (sortPeriodLabels (("T2/2024".toList) :: ("2024-03".toList) :: ("2023".toList) ::
        ("T1/2024".toList) :: [])).Pairwise
      (fun a b => periodLeProp (a, parsePeriod a) (b, parsePeriod b)) :=
  (claim_C4_sortPeriodLabels (("T2/2024".toList) :: ("2024-03".toList) :: ("2023".toList) ::
      ("T1/2024".toList) :: [])).2.1
    ⟨"2023".toList, by decide, by decide⟩

/-- `replace(/\.$/, "")`: drop one trailing dot if present. -/
def removeTrailingDot (l : Str) : Str :=
  match l.reverse with
  | '.' :: rest => rest.reverse
  | _ => l

/-- `wantCls` of `pickTotal`: `"1"` for assets, `"2"` for
liabilities. -/
def wantCls : Title → Str
  | Title.ATIVO => '1' :: []
  | Title.PASSIVO => '2' :: []

/-- `clsStr` of `pickTotal`: the trimmed classification with a
trailing dot removed. -/
def clsStr (r : NormalizedBaseRow) : Str :=
  removeTrailingDot (jsTrim (strOfOpt r.classification))

/-- `descNorm` of `pickTotal`. -/
def descNorm (r : NormalizedBaseRow) : Str := normalizeText (strOfOpt r.description)

/-- `descIsJustClassToken`: the broken-PDF case where the raw
description is literally the bare class digit (or digit-dot). -/
def descIsJustClassToken (title : Title) (r : NormalizedBaseRow) : Bool :=
  decide (jsTrim (strOfOpt r.description) = wantCls title) ||
  decide (jsTrim (strOfOpt r.description) = wantCls title ++ ('.' :: []))

/-- Membership in preference pool 1 of `pickTotal` (clear title
description; for liabilities also the `PASSIVO`-with-`PL`/`PATRIM`
combinations). -/
def byTitleDescMatch (title : Title) (r : NormalizedBaseRow) : Bool :=
  if descNorm r = [] then false
  else
    match title with
    | Title.ATIVO =>
      decide (descNorm r = "ATIVO".toList ∨ descNorm r = "TOTAL ATIVO".toList ∨
        descNorm r = "ATIVO TOTAL".toList ∨ descNorm r = "TOTAL DO ATIVO".toList)
    | Title.PASSIVO =>
      decide (descNorm r = "PASSIVO".toList ∨ descNorm r = "TOTAL PASSIVO".toList ∨
        descNorm r = "PASSIVO TOTAL".toList ∨ descNorm r = "TOTAL DO PASSIVO".toList) ||
      (strIncludes (descNorm r) ("PASSIVO".toList) &&
        (strIncludes (descNorm r) ("PL".toList) || strIncludes (descNorm r) ("PATRIM".toList)))

/-- The exact-title description test used inside the score function. -/
def scoreDescMatch (title : Title) (r : NormalizedBaseRow) : Bool :=
  match title with
  | Title.ATIVO =>
    decide (descNorm r = "ATIVO".toList ∨ descNorm r = "ATIVO TOTAL".toList ∨
      descNorm r = "TOTAL ATIVO".toList ∨ descNorm r = "TOTAL DO ATIVO".toList)
  | Title.PASSIVO =>
    decide (descNorm r = "PASSIVO".toList ∨ descNorm r = "PASSIVO TOTAL".toList ∨
      descNorm r = "TOTAL PASSIVO".toList ∨ descNorm r = "TOTAL DO PASSIVO".toList)

/-- One scored candidate of `pickTotal`: the row, its raw current
balance, and its glued-fix-corrected value. -/
structure Cand where
  r : NormalizedBaseRow
  raw : ℚ
  fixed : ℚ
deriving DecidableEq

def mkCand (title : Title) (ativoTotal : ℚ) (r : NormalizedBaseRow) : Cand :=
  ⟨r, numFromAny r.saldoAtual, applyGluedFix title (numFromAny r.saldoAtual) ativoTotal⟩

/-- The concatenated candidate pools of `pickTotal` (title
descriptions, root classification, broken-PDF digit descriptions, and
for liabilities the `group == "PASSIVO"` rows). -/
def candPools (title : Title) (rows : List NormalizedBaseRow) : List NormalizedBaseRow :=
  rows.filter (byTitleDescMatch title) ++
  rows.filter (fun r => decide (clsStr r = wantCls title)) ++
  rows.filter (fun r => decide (clsStr r = []) && descIsJustClassToken title r) ++
  (if title = Title.PASSIVO then rows.filter (fun r => decide (r.group = some Group.PASSIVO))
   else [])

/-- The candidate list of `pickTotal`: pools mapped through the glued
fix, keeping only candidates with `|fixed| > 1e-9`. -/
def pickCandidates (title : Title) (ativoTotal : ℚ) (rows : List NormalizedBaseRow) :
    List Cand :=
  ((candPools title rows).map (mkCand title ativoTotal)).filter
    (fun x => decide (1 / 1000000000 < |x.fixed|))

/-- `Math.abs(Math.abs(x.fixed) - ativo) / ativo`. -/
def relErrOf (ativo : ℚ) (x : Cand) : ℚ := |(|x.fixed| - ativo)| / ativo

/-- The liabilities plausibility pre-filter of `pickTotal`
(`maxOk = max(ativo*5, 50_000_000)`, falling back to all candidates
when it empties the list). -/
def passivoFiltered (ativo : ℚ) (cands : List Cand) : List Cand :=
  if cands.filter (fun x => decide (|x.fixed| ≤ max (ativo * 5) 50000000)) = [] then cands
  else cands.filter (fun x => decide (|x.fixed| ≤ max (ativo * 5) 50000000))

/-- First element achieving the minimum of `f` (the head of a stable
ascending sort by `f`, as computed by `sort(...)[0]` in the source). -/
def firstMinBy (f : α → ℚ) : List α → Option α
  | [] => none
  | x :: xs => some (xs.foldl (fun acc y => if f y < f acc then y else acc) x)

/-- First element that is maximal for the strict comparator `gt` (the
head of a stable descending sort, as computed by `sort(...)[0]`). -/
def firstMaxBy (gt : α → α → Bool) : List α → Option α
  | [] => none
  | x :: xs => some (xs.foldl (fun acc y => if gt y acc then y else acc) x)

/-- The discrete part of the `pickTotal` score: `+1000` for an exact
title description, `+200` for the exact root classification, `+50`
for the bare-digit-description artifact.  Every value is a multiple
of 50. -/
def scoreBase (title : Title) (x : Cand) : Nat :=
  (if scoreDescMatch title x.r then 1000 else 0) +
  (if clsStr x.r = wantCls title then 200 else 0) +
  (if descIsJustClassToken title x.r then 50 else 0)

/-- Exact-arithmetic strict comparison of the `pickTotal` scores
`base + min(100, 10·log₁₀(|fixed| + 1))`.  The magnitude term caps at
`100` exactly when `|fixed| + 1 ≥ 10^10`; otherwise comparing the
scores is equivalent to comparing `|fixed| + 1` against a power of 10
with integer exponent, because the bases are multiples of 50.  This
boolean decides `score x > score y` without real logarithms. -/
def scoreGt (title : Title) (x y : Cand) : Bool :=
  if (10000000000 : ℚ) ≤ |x.fixed| + 1 then
    if (10000000000 : ℚ) ≤ |y.fixed| + 1 then decide (scoreBase title y < scoreBase title x)
    else decide (|y.fixed| + 1 <
      (10 : ℚ) ^ (((scoreBase title x : Int) + 100 - (scoreBase title y : Int)) / 10))
  else
    if (10000000000 : ℚ) ≤ |y.fixed| + 1 then
      decide ((10 : ℚ) ^ (((scoreBase title y : Int) + 100 - (scoreBase title x : Int)) / 10) <
        |x.fixed| + 1)
    else
      decide ((|y.fixed| + 1) *
        (10 : ℚ) ^ (((scoreBase title y : Int) - (scoreBase title x : Int)) / 10) <
        |x.fixed| + 1)

/-- `pickTotal` from `kpiEngine.ts`: choose the most plausible total
row.  With a known assets total, liabilities selection prefers the
candidate with the smallest relative error when it is below `0.35`,
otherwise falls back to the score ranking. -/
def pickTotal (rows : List NormalizedBaseRow) (title : Title) (ativoTotal : ℚ) :
    Option NormalizedBaseRow :=
  if pickCandidates title ativoTotal rows = [] then none
  else if title = Title.PASSIVO ∧ 0 < |ativoTotal| then
    match firstMinBy (relErrOf |ativoTotal|)
        (passivoFiltered |ativoTotal| (pickCandidates title ativoTotal rows)) with
    | some best =>
      if relErrOf |ativoTotal| best < 35 / 100 then some best.r
      else (firstMaxBy (scoreGt title)
        (passivoFiltered |ativoTotal| (pickCandidates title ativoTotal rows))).map Cand.r
    | none =>
      (firstMaxBy (scoreGt title)
        (passivoFiltered |ativoTotal| (pickCandidates title ativoTotal rows))).map Cand.r
  else (firstMaxBy (scoreGt title) (pickCandidates title ativoTotal rows)).map Cand.r

lemma foldl_min_spec (f : α → ℚ) (xs : List α) (acc : α) :
    (xs.foldl (fun a y => if f y < f a then y else a) acc) ∈ acc :: xs ∧
    f (xs.foldl (fun a y => if f y < f a then y else a) acc) ≤ f acc ∧
    ∀ y ∈ xs, f (xs.foldl (fun a y => if f y < f a then y else a) acc) ≤ f y := by
  induction xs generalizing acc with
  | nil => simp
  | cons z zs ih =>
    simp only [List.foldl_cons]
    by_cases h : f z < f acc
    · rw [if_pos h]
      obtain ⟨hmem, hle, hall⟩ := ih z
      refine ⟨?_, le_trans hle (le_of_lt h), ?_⟩
      · simp only [List.mem_cons] at hmem ⊢
        tauto
      · intro y hy
        simp only [List.mem_cons] at hy
        rcases hy with rfl | hy
        · exact hle
        · exact hall y hy
    · rw [if_neg h]
      obtain ⟨hmem, hle, hall⟩ := ih acc
      refine ⟨?_, hle, ?_⟩
      · simp only [List.mem_cons] at hmem ⊢
        tauto
      · intro y hy
        simp only [List.mem_cons] at hy
        rcases hy with rfl | hy
        · exact le_trans hle (le_of_not_lt h)
        · exact hall y hy

lemma firstMinBy_spec {f : α → ℚ} {l : List α} {x : α} (h : firstMinBy f l = some x) :
    x ∈ l ∧ ∀ y ∈ l, f x ≤ f y := by
  cases l with
  | nil => exact absurd h (by simp [firstMinBy])
  | cons a as =>
    simp only [firstMinBy, Option.some.injEq] at h
    subst h
    obtain ⟨hmem, hacc, hall⟩ := foldl_min_spec f as a
    refine ⟨hmem, ?_⟩
    intro y hy
    simp only [List.mem_cons] at hy
    rcases hy with rfl | hy
    · exact hacc
    · exact hall y hy

lemma firstMinBy_isSome {f : α → ℚ} {l : List α} (h : l ≠ []) :
    ∃ x, firstMinBy f l = some x := by
  cases l with
  | nil => exact absurd rfl h
  | cons a as => exact ⟨_, rfl⟩

/-- C3: the liabilities magnitude fix divides by 10 in the
`[30,000,000, 40,000,000)` band, accepting the corrected value only
when the assets context is unknown or the corrected magnitude lies
strictly within `0.2×`–`5×` of it (otherwise the input is returned
unchanged); and when a positive assets total is known and some
candidate's corrected magnitude has relative error below `0.35`,
`pickTotal` returns a candidate achieving the minimal relative error
over all candidates, itself below `0.35`. -/
theorem claim_C3_liabilities_correction_and_selection :
    (∀ v a : ℚ, 30000000 ≤ |v| → |v| < 40000000 →
      ((|a| = 0 ∨ (|a| * (2 / 10) < |v| / 10 ∧ |v| / 10 < |a| * 5)) →
        applyGluedFix Title.PASSIVO v a = (if v < 0 then (-1 : ℚ) else 1) * (|v| / 10)) ∧
      (¬(|a| = 0 ∨ (|a| * (2 / 10) < |v| / 10 ∧ |v| / 10 < |a| * 5)) →
        applyGluedFix Title.PASSIVO v a = v)) ∧
    (∀ (rows : List NormalizedBaseRow) (A : ℚ), 0 < A →
      ∀ c ∈ pickCandidates Title.PASSIVO A rows, relErrOf A c < 35 / 100 →
        ∃ best ∈ pickCandidates Title.PASSIVO A rows,
          pickTotal rows Title.PASSIVO A = some best.r ∧
          relErrOf A best < 35 / 100 ∧
          ∀ x ∈ pickCandidates Title.PASSIVO A rows, relErrOf A best ≤ relErrOf A x) := by
  constructor
  · intro v a h1 h2
    constructor
    · intro hacc
      unfold applyGluedFix
      simp only []
      rw [if_neg (by linarith : ¬(|v| < 1 / 1000000000)), if_pos ⟨h1, h2, hacc⟩]
    · intro hacc
      unfold applyGluedFix
      simp only []
      rw [if_neg (by linarith : ¬(|v| < 1 / 1000000000)),
        if_neg (fun hC => hacc hC.2.2),
        if_neg (by
          rintro ⟨-, hC⟩
          have := le_max_right (|a| * 20) (200000000 : ℚ)
          linarith),
        if_neg (by rintro ⟨-, hC⟩; linarith),
        if_neg (by rintro ⟨-, hC, -⟩; linarith),
        if_neg (by rintro ⟨-, hC, -⟩; linarith)]
  · intro rows A hA c hc hcerr
    have habs : |A| = A := abs_of_pos hA
    have hAA : relErrOf |A| = relErrOf A := congrArg relErrOf habs
    have hfsub : c ∈ (pickCandidates Title.PASSIVO A rows).filter
        (fun x => decide (|x.fixed| ≤ max (|A| * 5) 50000000)) := by
      rw [List.mem_filter]
      refine ⟨hc, ?_⟩
      rw [decide_eq_true_eq, habs]
      have h1 : |(|c.fixed| - A)| < (35 / 100) * A := by
        have h0 := hcerr
        unfold relErrOf at h0
        calc |(|c.fixed| - A)| = (|(|c.fixed| - A)| / A) * A := by field_simp
        _ < (35 / 100) * A := mul_lt_mul_of_pos_right h0 hA
      have h2 : |c.fixed| - A < (35 / 100) * A := lt_of_le_of_lt (le_abs_self _) h1
      have h3 : |c.fixed| ≤ A * 5 := by nlinarith
      exact le_trans h3 (le_max_left _ _)
    have hFne : (pickCandidates Title.PASSIVO A rows).filter
        (fun x => decide (|x.fixed| ≤ max (|A| * 5) 50000000)) ≠ [] :=
      List.ne_nil_of_mem hfsub
    have hFeq : passivoFiltered |A| (pickCandidates Title.PASSIVO A rows) =
        (pickCandidates Title.PASSIVO A rows).filter
          (fun x => decide (|x.fixed| ≤ max (|A| * 5) 50000000)) := by
      unfold passivoFiltered
      rw [if_neg hFne]
    obtain ⟨b, hb⟩ := firstMinBy_isSome
      (f := relErrOf |A|)
      (l := passivoFiltered |A| (pickCandidates Title.PASSIVO A rows))
      (by rw [hFeq]; exact hFne)
    obtain ⟨hbmem, hbmin⟩ := firstMinBy_spec hb
    have hbcand : b ∈ pickCandidates Title.PASSIVO A rows := by
      rw [hFeq] at hbmem
      exact (List.mem_filter.mp hbmem).1
    have hbc : relErrOf |A| b ≤ relErrOf |A| c := hbmin c (by rw [hFeq]; exact hfsub)
    have hcerr2 : relErrOf |A| c < 35 / 100 := by
      rw [hAA]
      exact hcerr
    have hberr2 : relErrOf |A| b < 35 / 100 := lt_of_le_of_lt hbc hcerr2
    have hberr : relErrOf A b < 35 / 100 := by
      rw [← hAA]
      exact hberr2
    refine ⟨b, hbcand, ?_, hberr, ?_⟩
    · unfold pickTotal
      rw [if_neg (List.ne_nil_of_mem hc),
        if_pos ⟨rfl, by rw [habs]; exact hA⟩]
      rw [hb]
      simp only []
      rw [if_pos hberr2]
    · intro x hx
      rw [← hAA]
      by_cases hxf : |x.fixed| ≤ max (|A| * 5) 50000000
      · refine hbmin x ?_
        rw [hFeq, List.mem_filter]
        exact ⟨hx, by rwa [decide_eq_true_eq]⟩
      · push_neg at hxf
        have h5A : |A| * 5 ≤ max (|A| * 5) 50000000 := le_max_left _ _
        rw [habs] at h5A hxf
        have hxbig : A * 5 < |x.fixed| := lt_of_le_of_lt h5A hxf
        have hxerr : (4 : ℚ) ≤ relErrOf |A| x := by
          unfold relErrOf
          rw [habs, le_div_iff₀ hA]
          have h3 : |x.fixed| - A ≤ |(|x.fixed| - A)| := le_abs_self _
          linarith
        refine le_of_lt ?_
        calc relErrOf |A| b ≤ relErrOf |A| c := hbc
        _ < 35 / 100 := hcerr2
        _ ≤ 4 := by norm_num
        _ ≤ relErrOf |A| x := hxerr

/-- Concrete liabilities row for the C3 witness: description
`PASSIVO`, current balance read `31.082.543,78`. -/
def c3row : NormalizedBaseRow :=
  ⟨[], none, none, none, some ("PASSIVO".toList), none,
    JSVal.jmoney ⟨"31.082.543,78".toList, 3108254378 / 100⟩,
    JSVal.jnull, JSVal.jnull, JSVal.jnull, none⟩

/-- Witness for C3: a liabilities candidate of `31,082,543.78` with
assets total `4,500,000` corrects to `3,108,254.378` (divided by 10,
inside the `0.2×`–`5×` band) and is selected by `pickTotal` as the
minimal-relative-error candidate below `0.35`. -/
theorem claim_C3_liabilities_witness :
    applyGluedFix Title.PASSIVO (3108254378 / 100 : ℚ) 4500000 = 3108254378 / 1000 ∧
    ∃ best ∈ pickCandidates Title.PASSIVO 4500000 (c3row :: []),
      pickTotal (c3row :: []) Title.PASSIVO 4500000 = some best.r ∧
      relErrOf 4500000 best < 35 / 100 ∧
      ∀ x ∈ pickCandidates Title.PASSIVO 4500000 (c3row :: []),
        relErrOf 4500000 best ≤ relErrOf 4500000 x := by
  have habsv : |(3108254378 / 100 : ℚ)| = 3108254378 / 100 := abs_of_pos (by norm_num)
  have habsa : |(4500000 : ℚ)| = 4500000 := abs_of_pos (by norm_num)
  have hfixval : applyGluedFix Title.PASSIVO (3108254378 / 100 : ℚ) 4500000 =
      3108254378 / 1000 := by
    have h := (claim_C3_liabilities_correction_and_selection.1 (3108254378 / 100) 4500000
      (by rw [habsv]; norm_num) (by rw [habsv]; norm_num)).1
      (Or.inr ⟨by rw [habsa, habsv]; norm_num, by rw [habsa, habsv]; norm_num⟩)
    rw [habsv] at h
    rw [h, if_neg (by norm_num : ¬(3108254378 / 100 : ℚ) < 0)]
    norm_num
  have hfix : (mkCand Title.PASSIVO 4500000 c3row).fixed = 3108254378 / 1000 := by
    show applyGluedFix Title.PASSIVO (numFromAny c3row.saldoAtual) 4500000 = _
    rw [show numFromAny c3row.saldoAtual = 3108254378 / 100 from rfl]
    exact hfixval
  have hrel : relErrOf 4500000 (mkCand Title.PASSIVO 4500000 c3row) < 35 / 100 := by
    unfold relErrOf
    rw [hfix, abs_of_pos (by norm_num : (0 : ℚ) < 3108254378 / 1000),
      abs_of_neg (by norm_num : (3108254378 / 1000 : ℚ) - 4500000 < 0)]
    norm_num
  have hmem : (mkCand Title.PASSIVO 4500000 c3row) ∈
      pickCandidates Title.PASSIVO 4500000 (c3row :: []) := by
    unfold pickCandidates
    rw [List.mem_filter]
    refine ⟨List.mem_map_of_mem _ ?_, ?_⟩
    · unfold candPools
      refine List.mem_append.mpr (Or.inl ?_)
      refine List.mem_append.mpr (Or.inl ?_)
      refine List.mem_append.mpr (Or.inl ?_)
      rw [List.mem_filter]
      exact ⟨List.mem_cons_self _ _, by decide⟩
    · rw [decide_eq_true_eq, hfix,
        abs_of_pos (by norm_num : (0 : ℚ) < 3108254378 / 1000)]
      norm_num
  exact ⟨hfixval,
    claim_C3_liabilities_correction_and_selection.2 (c3row :: []) 4500000 (by norm_num)
      _ hmem hrel⟩

/-! DRE KPI computation from `kpiEngine.ts` (`computeTccKpisFromBase` and
its helpers `dreValue`, `bucketKey`, `isDreRelevantRow`, `computeBuckets`,
`sumByMatchAbs`, `sumByBucketAbs`, `sumByClassificationPrefixAbs`, `pct`,
the `RX` keyword lists and the `PLAN_PREFIX` table). -/

/-- The `"credito" | "debito"` preference argument of `dreValue`. -/
inductive Prefer where
  | credito
  | debito
deriving DecidableEq

/-- `RX.receitaLiquida` from `kpiEngine.ts`. -/
def rxReceitaLiquida : List Str :=
  ["RECEITA LIQUIDA".toList, "RECEITA LIQ".toList, "RECEITAS LIQUIDAS".toList,
   "RECEITA OPERACIONAL LIQUIDA".toList, "ROL".toList]

/-- `RX.receitaBruta` from `kpiEngine.ts`. -/
def rxReceitaBruta : List Str :=
  ["RECEITA BRUTA".toList, "RECEITA OPERACIONAL BRUTA".toList, "VENDAS BRUTAS".toList,
   "FATURAMENTO BRUTO".toList]

/-- `RX.deducoes` from `kpiEngine.ts`. -/
def rxDeducoes : List Str :=
  ["DEDUCOES".toList, "DEDUCAO".toList, "DEVOLUCOES".toList, "ABATIMENTOS".toList,
   "CANCELAMENTOS".toList, "ICMS".toList, "ISS".toList, "PIS".toList, "COFINS".toList]

/-- `RX.cmvCpv` from `kpiEngine.ts`. -/
def rxCmvCpv : List Str :=
  ["CMV".toList, "CPV".toList, "CUSTO".toList, "CUSTOS".toList,
   "CUSTO DAS MERCADORIAS".toList, "CUSTO DOS PRODUTOS".toList,
   "CUSTO DOS SERVICOS".toList, "CUSTO DOS SERVICOS PRESTADOS".toList, "CSP".toList]

/-- `RX.despesasAdmin` from `kpiEngine.ts`. -/
def rxDespesasAdmin : List Str :=
  ["DESPESAS ADMIN".toList, "DESPESAS ADMINISTRATIVAS".toList, "DESPESA ADMIN".toList,
   "ADMINISTRATIVAS".toList]

/-- `RX.despesasComerciais` from `kpiEngine.ts`. -/
def rxDespesasComerciais : List Str :=
  ["DESPESAS COMERC".toList, "DESPESAS COMERCIAIS".toList, "DESPESAS DE VENDAS".toList,
   "MARKETING".toList, "PROPAGANDA".toList, "PUBLICIDADE".toList]

/-- `RX.outrasDespesas` from `kpiEngine.ts`. -/
def rxOutrasDespesas : List Str :=
  ["OUTRAS DESPESAS".toList, "DESPESAS GERAIS".toList, "DESPESAS OPERACIONAIS".toList,
   "DESPESAS FINANCEIRAS".toList, "CUSTOS FINANCEIROS".toList, "DESPESAS".toList]

/-- `PLAN_PREFIX.receita_bruta`. -/
def planReceitaBruta : List Str := ["3.1".toList]

/-- `PLAN_PREFIX.deducoes`. -/
def planDeducoes : List Str := ["3.2".toList]

/-- `PLAN_PREFIX.cmv_cpv`. -/
def planCmvCpv : List Str := ["3.3".toList, "3.4".toList, "3.5".toList]

/-- `PLAN_PREFIX.despesas_admin`. -/
def planDespesasAdmin : List Str := ["3.7".toList, "3.8".toList]

/-- `matchAny` from `kpiEngine.ts`: some pattern occurs in the
normalized description. -/
def matchAny (desc : Str) (patterns : List Str) : Bool :=
  patterns.any (fun p => strIncludes desc p)

/-- `dreValue` from `kpiEngine.ts`: preferred-column reading of a row
with the `1e-9` dead-band and the `debito - credito` fallback. -/
def dreValue (r : NormalizedBaseRow) (prefer : Prefer) : ℚ :=
  if prefer = Prefer.credito ∧ 1 / 1000000000 < |numFromAny r.credito| then numFromAny r.credito
  else if prefer = Prefer.debito ∧ 1 / 1000000000 < |numFromAny r.debito| then numFromAny r.debito
  else if 1 / 1000000000 < |numFromAny r.saldoAtual| then numFromAny r.saldoAtual
  else if 1 / 1000000000 < |numFromAny r.saldoAnterior| then numFromAny r.saldoAnterior
  else if 1 / 1000000000 < |numFromAny r.debito| ∨ 1 / 1000000000 < |numFromAny r.credito| then
    numFromAny r.debito - numFromAny r.credito
  else 0

/-- `bucketKey` from `kpiEngine.ts`: the `^([123]\.\d\x7b1,3\x7d)` capture of
the KPI-normalized classification, or `null`. -/
def bucketKey (classification : Option Str) : Option Str :=
  match normalizeClassificationKpi (strOfOpt classification) with
  | a :: '.' :: rest =>
    if isRoot13 a then
      match (rest.takeWhile Char.isDigit).take 3 with
      | [] => none
      | d :: ds => some (a :: '.' :: d :: ds)
    else none
  | _ => none

/-- `isDreRelevantRow` from `kpiEngine.ts`: group `DRE`, or a
classification equal to `3` or starting with `3.`. -/
def isDreRelevantRow (r : NormalizedBaseRow) : Bool :=
  r.group == some Group.DRE ||
    normalizeClassificationKpi (strOfOpt r.classification) == ('3' :: []) ||
    strStartsWith (normalizeClassificationKpi (strOfOpt r.classification)) ('3' :: '.' :: [])

/-- The salvage value a row contributes to its bucket (`sa`, else
`sb`, else `debito - credito`, with the `1e-9` dead-band). -/
def rowBucketValue (r : NormalizedBaseRow) : ℚ :=
  if 1 / 1000000000 < |numFromAny r.saldoAtual| then numFromAny r.saldoAtual
  else if 1 / 1000000000 < |numFromAny r.saldoAnterior| then numFromAny r.saldoAnterior
  else numFromAny r.debito - numFromAny r.credito

/-- One output entry of `computeBuckets`. -/
structure BucketEntry where
  key : Str
  total : ℚ
  lines : Nat
deriving DecidableEq

/-- One `Map.set` update of the bucket accumulator: add `v` to the
entry keyed `k` (keeping insertion order), or append a fresh entry. -/
def bucketInsert : List (Str × ℚ × Nat) → Str → ℚ → List (Str × ℚ × Nat)
  | [], k, v => (k, v, 1) :: []
  | x :: rest, k, v =>
    if x.1 = k then (x.1, x.2.1 + v, x.2.2 + 1) :: rest else x :: bucketInsert rest k v

/-- The bucket accumulator of `computeBuckets` (a `Map` in insertion
order). -/
def bucketMap (rows : List NormalizedBaseRow) : List (Str × ℚ × Nat) :=
  rows.foldl (fun acc r =>
    match bucketKey r.classification with
    | none => acc
    | some k => bucketInsert acc k (rowBucketValue r)) []

/-- `computeBuckets` from `kpiEngine.ts`: rounded per-bucket totals,
stably sorted by descending absolute total. -/
def computeBuckets (rows : List NormalizedBaseRow) : List BucketEntry :=
  List.insertionSort (fun a b => |b.total| ≤ |a.total|)
    ((bucketMap rows).map (fun e => ⟨e.1, brRound e.2.1, e.2.2⟩))

/-- `sumByMatchAbs` from `kpiEngine.ts`: rounded sum of `|dreValue|`
over rows whose normalized description is nonempty and matches some
pattern. -/
def sumByMatchAbs (rows : List NormalizedBaseRow) (patterns : List Str) (prefer : Prefer) : ℚ :=
  brRound (rows.foldl (fun s r =>
    if normalizeText (strOfOpt r.description) ≠ [] ∧
        matchAny (normalizeText (strOfOpt r.description)) patterns = true then
      s + |dreValue r prefer|
    else s) 0)

/-- `sumByBucketAbs` from `kpiEngine.ts`: rounded sum of the absolute
bucket value over rows whose bucket key is listed in `keys`. -/
def sumByBucketAbs (rows : List NormalizedBaseRow) (keys : List Str) : ℚ :=
  brRound (rows.foldl (fun s r =>
    match bucketKey r.classification with
    | some k => if k ∈ keys then s + |rowBucketValue r| else s
    | none => s) 0)

/-- The per-prefix hit test of `sumByClassificationPrefixAbs`: the
trimmed prefix is nonempty, is `3` or starts with `3.`, and the raw
trimmed or KPI-normalized classification starts with it. -/
def prefixHit (r : NormalizedBaseRow) (p : Str) : Bool :=
  !(jsTrim p).isEmpty &&
    (jsTrim p == ('3' :: []) || strStartsWith (jsTrim p) ('3' :: '.' :: [])) &&
    (strStartsWith (jsTrim (strOfOpt r.classification)) (jsTrim p) ||
      strStartsWith (normalizeClassificationKpi (strOfOpt r.classification)) (jsTrim p))

/-- `sumByClassificationPrefixAbs` from `kpiEngine.ts`. -/
def sumByClassificationPrefixAbs (rows : List NormalizedBaseRow) (prefixes : List Str)
    (prefer : Prefer) : ℚ :=
  brRound (rows.foldl (fun s r =>
    if prefixes.any (prefixHit r) then s + |dreValue r prefer| else s) 0)

/-- `pct` from `kpiEngine.ts`: `null` on a zero denominator, else the
rounded percentage. -/
def pct (num den : ℚ) : Option ℚ :=
  if den = 0 then none else some (brRound (num / den * 100))

/-- Final `receita_bruta` figure of a period: plan-prefix sum, else
keyword sum, else bucket `3.1` (the `if (!receita_bruta)` chain). -/
def figReceitaBruta (rows : List NormalizedBaseRow) : ℚ :=
  if sumByClassificationPrefixAbs rows planReceitaBruta Prefer.credito ≠ 0 then
    sumByClassificationPrefixAbs rows planReceitaBruta Prefer.credito
  else if sumByMatchAbs rows rxReceitaBruta Prefer.credito ≠ 0 then
    sumByMatchAbs rows rxReceitaBruta Prefer.credito
  else sumByBucketAbs rows planReceitaBruta

/-- Final `deducoes` figure of a period. -/
def figDeducoes (rows : List NormalizedBaseRow) : ℚ :=
  if sumByClassificationPrefixAbs rows planDeducoes Prefer.debito ≠ 0 then
    sumByClassificationPrefixAbs rows planDeducoes Prefer.debito
  else if sumByMatchAbs rows rxDeducoes Prefer.debito ≠ 0 then
    sumByMatchAbs rows rxDeducoes Prefer.debito
  else sumByBucketAbs rows planDeducoes

/-- Final `cmv_cpv` figure of a period. -/
def figCmvCpv (rows : List NormalizedBaseRow) : ℚ :=
  if sumByClassificationPrefixAbs rows planCmvCpv Prefer.debito ≠ 0 then
    sumByClassificationPrefixAbs rows planCmvCpv Prefer.debito
  else if sumByMatchAbs rows rxCmvCpv Prefer.debito ≠ 0 then
    sumByMatchAbs rows rxCmvCpv Prefer.debito
  else sumByBucketAbs rows planCmvCpv

/-- Final `despesas_admin` figure of a period. -/
def figDespesasAdmin (rows : List NormalizedBaseRow) : ℚ :=
  if sumByClassificationPrefixAbs rows planDespesasAdmin Prefer.debito ≠ 0 then
    sumByClassificationPrefixAbs rows planDespesasAdmin Prefer.debito
  else if sumByMatchAbs rows rxDespesasAdmin Prefer.debito ≠ 0 then
    sumByMatchAbs rows rxDespesasAdmin Prefer.debito
  else sumByBucketAbs rows planDespesasAdmin

/-- Final `receita_liquida` figure of a period: keyword sum, with the
`brRound(receita_bruta - deducoes)` fallback when it is zero and the
gross figure is not. -/
def figReceitaLiquida (rows : List NormalizedBaseRow) : ℚ :=
  if sumByMatchAbs rows rxReceitaLiquida Prefer.credito ≠ 0 then
    sumByMatchAbs rows rxReceitaLiquida Prefer.credito
  else if figReceitaBruta rows ≠ 0 then brRound (figReceitaBruta rows - figDeducoes rows)
  else sumByMatchAbs rows rxReceitaLiquida Prefer.credito

/-- `despesas_comerciais` figure of a period. -/
def figDespesasComerciais (rows : List NormalizedBaseRow) : ℚ :=
  sumByMatchAbs rows rxDespesasComerciais Prefer.debito

/-- `outras_despesas` figure of a period. -/
def figOutrasDespesas (rows : List NormalizedBaseRow) : ℚ :=
  sumByMatchAbs rows rxOutrasDespesas Prefer.debito

/-- `lucro_bruto` before gating: `null` when `receita_liquida` is
falsy. -/
def figLucroBruto (rows : List NormalizedBaseRow) : Option ℚ :=
  if figReceitaLiquida rows ≠ 0 then
    some (brRound (figReceitaLiquida rows - figCmvCpv rows))
  else none

/-- `resultado_operacional` before gating. -/
def figResultadoOperacional (rows : List NormalizedBaseRow) : Option ℚ :=
  match figLucroBruto rows with
  | some lb =>
    some (brRound (lb - figDespesasAdmin rows - figDespesasComerciais rows -
      figOutrasDespesas rows))
  | none => none

/-- The `confident` flag of a period: (gross or net revenue positive)
and (some cost or expense figure positive). -/
def confidentFor (rows : List NormalizedBaseRow) : Bool :=
  decide ((0 < figReceitaBruta rows ∨ 0 < figReceitaLiquida rows) ∧
    (0 < figCmvCpv rows ∨ 0 < figDespesasAdmin rows ∨
      0 < figDespesasComerciais rows ∨ 0 < figOutrasDespesas rows))

/-- One period entry of the `TccKpiResult` (the object literal at the
end of the `byPeriod` map). -/
structure TccKpiPeriod where
  period : Str
  year : Option Int
  receita_liquida : ℚ
  receita_bruta : ℚ
  deducoes : ℚ
  cmv_cpv : ℚ
  despesas_admin : ℚ
  despesas_comerciais : ℚ
  outras_despesas : ℚ
  lucro_bruto : Option ℚ
  resultado_operacional : Option ℚ
  lucro_liquido : Option ℚ
  margem_bruta_pct : Option ℚ
  margem_liquida_pct : Option ℚ
  buckets : List BucketEntry
deriving DecidableEq

/-- `rows.find((x) => typeof x.year === "number")?.year ?? null`. -/
def yearOf (rows : List NormalizedBaseRow) : Option Int :=
  match rows.find? (fun x => x.year.isSome) with
  | some r => r.year
  | none => none

/-- The period entry built by `computeTccKpisFromBase` for one group:
figures, derived results and margins gated by `confident` (`safe`);
`buckets` and `year` are not gated. -/
def kpiPeriodOf (period : Str) (rows : List NormalizedBaseRow) : TccKpiPeriod :=
  ⟨period, yearOf rows,
   if confidentFor rows then figReceitaLiquida rows else 0,
   if confidentFor rows then figReceitaBruta rows else 0,
   if confidentFor rows then figDeducoes rows else 0,
   if confidentFor rows then figCmvCpv rows else 0,
   if confidentFor rows then figDespesasAdmin rows else 0,
   if confidentFor rows then figDespesasComerciais rows else 0,
   if confidentFor rows then figOutrasDespesas rows else 0,
   if confidentFor rows then figLucroBruto rows else none,
   if confidentFor rows then figResultadoOperacional rows else none,
   if confidentFor rows then figResultadoOperacional rows else none,
   if confidentFor rows then
     match figLucroBruto rows with
     | some lb => pct lb (figReceitaLiquida rows)
     | none => none
   else none,
   if confidentFor rows then
     match figResultadoOperacional rows with
     | some ro => pct ro (figReceitaLiquida rows)
     | none => none
   else none,
   computeBuckets rows⟩

/-- One `byPeriodMap.set` update: append `r` to the rows of its period
(keeping insertion order), or append a fresh entry. -/
def periodInsert : List (Str × List NormalizedBaseRow) → NormalizedBaseRow →
    List (Str × List NormalizedBaseRow)
  | [], r => (r.period, r :: []) :: []
  | x :: rest, r =>
    if x.1 = r.period then (x.1, x.2 ++ (r :: [])) :: rest else x :: periodInsert rest r

/-- The `byPeriodMap` of `computeTccKpisFromBase`: DRE-relevant rows
with a nonempty period, grouped by period in insertion order. -/
def dreGroups (base : List NormalizedBaseRow) : List (Str × List NormalizedBaseRow) :=
  base.foldl (fun acc r =>
    if r.period ≠ [] ∧ isDreRelevantRow r = true then periodInsert acc r else acc) []

/-- The per-period insufficient-validation diagnostic note. -/
def noteInsufficient (period : Str) : Str :=
  "Período ".toList ++ period ++
    ": KPIs de DRE sem validação suficiente no balancete (evitando fallback).".toList

/-- The note pushed when no period group was formed at all. -/
def noteNoDre : Str :=
  ("Não foram detectadas linhas de DRE (classe 3.x) no balancete. " ++
    "KPIs de Receita/Lucro podem ficar indisponíveis.").toList

/-- The `TccKpiResult` record (`byPeriod` plus `notes`). -/
structure TccKpiResult where
  byPeriod : List TccKpiPeriod
  notes : List Str
deriving DecidableEq

/-- `computeTccKpisFromBase` from `kpiEngine.ts`: one entry per period
group, one insufficient-validation note per non-confident group (in
group order), and the no-DRE note when no group was formed. -/
def computeTccKpisFromBase (base : List NormalizedBaseRow) : TccKpiResult :=
  ⟨(dreGroups base).map (fun x => kpiPeriodOf x.1 x.2),
   ((dreGroups base).filter (fun x => !confidentFor x.2)).map
       (fun x => noteInsufficient x.1) ++
     (if dreGroups base = [] then noteNoDre :: [] else [])⟩

lemma strStartsWith_nil {q : Str} (h : q ≠ []) : strStartsWith [] q = false := by
  cases q with
  | nil => exact absurd rfl h
  | cons a t => rfl

lemma noteInsufficient_inj {a b : Str} (h : noteInsufficient a = noteInsufficient b) :
    a = b := by
  unfold noteInsufficient at h
  exact List.append_cancel_left (List.append_cancel_right h)

lemma periodInsert_keys (r : NormalizedBaseRow) :
    ∀ (acc : List (Str × List NormalizedBaseRow)) (k : Str),
      k ∈ (periodInsert acc r).map Prod.fst ↔ k ∈ acc.map Prod.fst ∨ k = r.period := by
  intro acc
  induction acc with
  | nil => intro k; simp [periodInsert]
  | cons x rest ih =>
    intro k
    by_cases h : x.1 = r.period
    · rw [periodInsert, if_pos h]
      simp only [List.map_cons, List.mem_cons]
      rw [h]
      tauto
    · rw [periodInsert, if_neg h]
      simp only [List.map_cons, List.mem_cons]
      rw [ih]
      tauto

lemma periodInsert_keys_nodup (r : NormalizedBaseRow) :
    ∀ (acc : List (Str × List NormalizedBaseRow)),
      (acc.map Prod.fst).Nodup → ((periodInsert acc r).map Prod.fst).Nodup := by
  intro acc
  induction acc with
  | nil => intro _; simp [periodInsert]
  | cons x rest ih =>
    intro hnd
    rw [List.map_cons, List.nodup_cons] at hnd
    by_cases h : x.1 = r.period
    · rw [periodInsert, if_pos h]
      rw [List.map_cons, List.nodup_cons]
      exact hnd
    · rw [periodInsert, if_neg h]
      rw [List.map_cons, List.nodup_cons]
      refine ⟨?_, ih hnd.2⟩
      rw [periodInsert_keys]
      rintro (hc | hc)
      · exact hnd.1 hc
      · exact h hc

lemma dreGroups_fold_nodup :
    ∀ (l : List NormalizedBaseRow) (acc : List (Str × List NormalizedBaseRow)),
      (acc.map Prod.fst).Nodup →
      ((l.foldl (fun acc r =>
          if r.period ≠ [] ∧ isDreRelevantRow r = true then periodInsert acc r else acc)
        acc).map Prod.fst).Nodup := by
  intro l
  induction l with
  | nil => intro acc h; exact h
  | cons r t ih =>
    intro acc h
    rw [List.foldl_cons]
    apply ih
    by_cases hc : r.period ≠ [] ∧ isDreRelevantRow r = true
    · rw [if_pos hc]; exact periodInsert_keys_nodup r acc h
    · rw [if_neg hc]; exact h

lemma dreGroups_keys_nodup (base : List NormalizedBaseRow) :
    ((dreGroups base).map Prod.fst).Nodup := by
  unfold dreGroups
  exact dreGroups_fold_nodup base [] (by simp)

lemma count_note_one (g : Str × List NormalizedBaseRow) :
    ∀ l : List (Str × List NormalizedBaseRow),
      (l.map Prod.fst).Nodup → g ∈ l → confidentFor g.2 = false →
      ((l.filter (fun x => !confidentFor x.2)).map
          (fun x => noteInsufficient x.1)).count (noteInsufficient g.1) = 1 := by
  intro l
  induction l with
  | nil => intro _ hg _; exact absurd hg (List.not_mem_nil _)
  | cons x t ih =>
    intro hnd hg hconf
    rw [List.map_cons, List.nodup_cons] at hnd
    rcases List.mem_cons.mp hg with rfl | hgt
    · rw [List.filter_cons, if_pos (by simp [hconf])]
      rw [List.map_cons, List.count_cons_self]
      have hz : ((t.filter (fun x => !confidentFor x.2)).map
          (fun x => noteInsufficient x.1)).count (noteInsufficient g.1) = 0 := by
        rw [List.count_eq_zero]
        intro hmem
        rcases List.mem_map.mp hmem with ⟨y, hy, hyeq⟩
        exact hnd.1 ((noteInsufficient_inj hyeq) ▸
          List.mem_map_of_mem Prod.fst (List.mem_of_mem_filter hy))
      rw [hz]
    · have hne : noteInsufficient x.1 ≠ noteInsufficient g.1 := by
        intro he
        exact hnd.1 ((noteInsufficient_inj he) ▸ List.mem_map_of_mem Prod.fst hgt)
      rw [List.filter_cons]
      by_cases hx : (!confidentFor x.2) = true
      · rw [if_pos hx, List.map_cons, List.count_cons_of_ne (Ne.symm hne)]
        exact ih hnd.2 hgt hconf
      · rw [if_neg hx]
        exact ih hnd.2 hgt hconf

/-- C6: for every period group formed by `computeTccKpisFromBase`, the
period's entry appears in `byPeriod`; the `confident` flag holds iff
(the gross or the net revenue figure is positive) and (at least one of
the cost-of-goods, administrative, commercial or other-expense figures
is positive); and when `confident` is false, the seven DRE figures of
the reported entry are `0`, the derived results and margins are
`null`, and exactly one insufficient-validation note is recorded for
that period (the ungated diagnostic `buckets` array and `year` are the
only other payload of the entry). -/
theorem claim_C6_confidence_gating (base : List NormalizedBaseRow) :
    ∀ g ∈ dreGroups base,
      kpiPeriodOf g.1 g.2 ∈ (computeTccKpisFromBase base).byPeriod ∧
      (confidentFor g.2 = true ↔
        (0 < figReceitaBruta g.2 ∨ 0 < figReceitaLiquida g.2) ∧
        (0 < figCmvCpv g.2 ∨ 0 < figDespesasAdmin g.2 ∨
          0 < figDespesasComerciais g.2 ∨ 0 < figOutrasDespesas g.2)) ∧
      (confidentFor g.2 = false →
        (kpiPeriodOf g.1 g.2).receita_liquida = 0 ∧
        (kpiPeriodOf g.1 g.2).receita_bruta = 0 ∧
        (kpiPeriodOf g.1 g.2).deducoes = 0 ∧
        (kpiPeriodOf g.1 g.2).cmv_cpv = 0 ∧
        (kpiPeriodOf g.1 g.2).despesas_admin = 0 ∧
        (kpiPeriodOf g.1 g.2).despesas_comerciais = 0 ∧
        (kpiPeriodOf g.1 g.2).outras_despesas = 0 ∧
        (kpiPeriodOf g.1 g.2).lucro_bruto = none ∧
        (kpiPeriodOf g.1 g.2).resultado_operacional = none ∧
        (kpiPeriodOf g.1 g.2).lucro_liquido = none ∧
        (kpiPeriodOf g.1 g.2).margem_bruta_pct = none ∧
        (kpiPeriodOf g.1 g.2).margem_liquida_pct = none ∧
        (computeTccKpisFromBase base).notes.count (noteInsufficient g.1) = 1) := by
  intro g hg
  refine ⟨?_, ?_, ?_⟩
  · show kpiPeriodOf g.1 g.2 ∈ (dreGroups base).map (fun x => kpiPeriodOf x.1 x.2)
    exact List.mem_map_of_mem _ hg
  · unfold confidentFor
    exact decide_eq_true_iff
  · intro hfalse
    have hne : dreGroups base ≠ [] := by
      intro h
      rw [h] at hg
      exact absurd hg (List.not_mem_nil _)
    have hfields :
        (kpiPeriodOf g.1 g.2).receita_liquida = 0 ∧
        (kpiPeriodOf g.1 g.2).receita_bruta = 0 ∧
        (kpiPeriodOf g.1 g.2).deducoes = 0 ∧
        (kpiPeriodOf g.1 g.2).cmv_cpv = 0 ∧
        (kpiPeriodOf g.1 g.2).despesas_admin = 0 ∧
        (kpiPeriodOf g.1 g.2).despesas_comerciais = 0 ∧
        (kpiPeriodOf g.1 g.2).outras_despesas = 0 ∧
        (kpiPeriodOf g.1 g.2).lucro_bruto = none ∧
        (kpiPeriodOf g.1 g.2).resultado_operacional = none ∧
        (kpiPeriodOf g.1 g.2).lucro_liquido = none ∧
        (kpiPeriodOf g.1 g.2).margem_bruta_pct = none ∧
        (kpiPeriodOf g.1 g.2).margem_liquida_pct = none := by
      unfold kpiPeriodOf
      rw [hfalse]
      simp
    refine ⟨hfields.1, hfields.2.1, hfields.2.2.1, hfields.2.2.2.1, hfields.2.2.2.2.1,
      hfields.2.2.2.2.2.1, hfields.2.2.2.2.2.2.1, hfields.2.2.2.2.2.2.2.1,
      hfields.2.2.2.2.2.2.2.2.1, hfields.2.2.2.2.2.2.2.2.2.1,
      hfields.2.2.2.2.2.2.2.2.2.2.1, hfields.2.2.2.2.2.2.2.2.2.2.2, ?_⟩
    have hnotes : (computeTccKpisFromBase base).notes =
        ((dreGroups base).filter (fun x => !confidentFor x.2)).map
          (fun x => noteInsufficient x.1) := by
      show ((dreGroups base).filter (fun x => !confidentFor x.2)).map
            (fun x => noteInsufficient x.1) ++
          (if dreGroups base = [] then noteNoDre :: [] else []) = _
      rw [if_neg hne, List.append_nil]
    rw [hnotes]
    exact count_note_one g (dreGroups base) (dreGroups_keys_nodup base) hg hfalse

/-- A DRE-group row with period `2024` and no usable figure at all
(every monetary column `null`, no description, no classification). -/
def c6row : NormalizedBaseRow :=
  ⟨'2' :: '0' :: '2' :: '4' :: [], none, none, none, none, some Group.DRE,
   JSVal.jnull, JSVal.jnull, JSVal.jnull, JSVal.jnull, none⟩

/-- Witness for C6: the single-row base `[c6row]` forms the period
group `2024`, is not confident, its reported entry has `receita_bruta
= 0` and `lucro_bruto = null`, and exactly one insufficient-validation
note is recorded for `2024`. -/
theorem claim_C6_confidence_gating_witness :
    (('2' :: '0' :: '2' :: '4' :: [], c6row :: []) ∈ dreGroups (c6row :: []) ∧
      confidentFor (c6row :: []) = false) ∧
    kpiPeriodOf ('2' :: '0' :: '2' :: '4' :: []) (c6row :: []) ∈
      (computeTccKpisFromBase (c6row :: [])).byPeriod ∧
    (kpiPeriodOf ('2' :: '0' :: '2' :: '4' :: []) (c6row :: [])).receita_bruta = 0 ∧
    (kpiPeriodOf ('2' :: '0' :: '2' :: '4' :: []) (c6row :: [])).lucro_bruto = none ∧
    (computeTccKpisFromBase (c6row :: [])).notes.count
      (noteInsufficient ('2' :: '0' :: '2' :: '4' :: [])) = 1 := by
  have hhit : ∀ p : Str, prefixHit c6row p = false := by
    intro p
    unfold prefixHit
    by_cases h : jsTrim p = []
    · simp [h]
    · have h1 : strStartsWith (jsTrim (strOfOpt c6row.classification)) (jsTrim p) = false := by
        have hcl : jsTrim (strOfOpt c6row.classification) = [] := by decide
        rw [hcl]
        exact strStartsWith_nil h
      have h2 : strStartsWith (normalizeClassificationKpi (strOfOpt c6row.classification))
          (jsTrim p) = false := by
        have hcl : normalizeClassificationKpi (strOfOpt c6row.classification) = [] := by decide
        rw [hcl]
        exact strStartsWith_nil h
      rw [h1, h2]
      simp
  have hpre : ∀ (ps : List Str) (pr : Prefer),
      sumByClassificationPrefixAbs (c6row :: []) ps pr = 0 := by
    intro ps pr
    unfold sumByClassificationPrefixAbs
    simp only [List.foldl_cons, List.foldl_nil]
    rw [if_neg (by simp [List.any_eq_true, hhit])]
    norm_num [brRound]
  have hmatchS : ∀ (ps : List Str) (pr : Prefer), sumByMatchAbs (c6row :: []) ps pr = 0 := by
    intro ps pr
    unfold sumByMatchAbs
    simp only [List.foldl_cons, List.foldl_nil]
    rw [if_neg (fun hc => hc.1 (by decide))]
    norm_num [brRound]
  have hbuck : ∀ ks : List Str, sumByBucketAbs (c6row :: []) ks = 0 := by
    intro ks
    unfold sumByBucketAbs
    simp only [List.foldl_cons, List.foldl_nil]
    have hbk : bucketKey c6row.classification = none := by decide
    rw [hbk]
    show brRound 0 = 0
    norm_num [brRound]
  have hRB : figReceitaBruta (c6row :: []) = 0 := by
    unfold figReceitaBruta
    rw [if_neg (fun hc => hc (hpre _ _)), if_neg (fun hc => hc (hmatchS _ _))]
    exact hbuck _
  have hRL : figReceitaLiquida (c6row :: []) = 0 := by
    unfold figReceitaLiquida
    rw [if_neg (fun hc => hc (hmatchS _ _)), if_neg (fun hc => hc hRB)]
    exact hmatchS _ _
  have hconf : confidentFor (c6row :: []) = false := by
    unfold confidentFor
    apply decide_eq_false
    rintro ⟨h1, -⟩
    rcases h1 with h | h
    · rw [hRB] at h
      exact lt_irrefl 0 h
    · rw [hRL] at h
      exact lt_irrefl 0 h
  have hmem : (('2' :: '0' :: '2' :: '4' :: [], c6row :: []) :
      Str × List NormalizedBaseRow) ∈ dreGroups (c6row :: []) := by decide
  have h := claim_C6_confidence_gating (c6row :: [])
    ('2' :: '0' :: '2' :: '4' :: [], c6row :: []) hmem
  have h2 := h.2.2 hconf
  obtain ⟨-, hb2, -, -, -, -, -, hb8, -, -, -, -, hb13⟩ := h2
  exact ⟨⟨hmem, hconf⟩, h.1, hb2, hb8, hb13⟩

/-! `normalizeBase` from `normalizeBase.ts`.  A `ContabilRow` as
produced by the line parser: optional fields are `Option`s (JS
`undefined` and `null` both normalize through `?? null`), and the
monetary columns carry the `{raw, value}` pair when present. -/

/-- `ContabilRow` from `contabilParser.ts`. -/
structure ContabilRow where
  rawLine : Str
  group : Option Group
  code : Option Str
  description : Option Str
  classification : Option Str
  saldoAtual : Option MoneyQ
  saldoAnterior : Option MoneyQ
  debito : Option MoneyQ
  credito : Option MoneyQ
deriving DecidableEq

/-- `x ?? null` on a monetary column: the `{raw, value}` object when
present, JS `null` otherwise. -/
def jsOfMoney : Option MoneyQ → JSVal
  | none => JSVal.jnull
  | some m => JSVal.jmoney m

/-- `groupFromClassification` from `normalizeBase.ts` (it re-runs
`normalizeClassification` on its argument). -/
def groupFromClassification (clsRaw : Str) : Group :=
  if normalizeClassification clsRaw = ('1' :: []) ∨
      strStartsWith (normalizeClassification clsRaw) ('1' :: '.' :: []) = true then Group.ATIVO
  else if normalizeClassification clsRaw = ('2' :: []) ∨
      strStartsWith (normalizeClassification clsRaw) ('2' :: '.' :: []) = true then Group.PASSIVO
  else if normalizeClassification clsRaw = ('3' :: []) ∨
      strStartsWith (normalizeClassification clsRaw) ('3' :: '.' :: []) = true then Group.DRE
  else Group.OUTROS

/-- The first pass of `normalizeBase`: the fresh `NormalizedBaseRow`
pushed for one `ContabilRow` (`r.classification ?? r.classificacao`
collapses to the one classification field of the embedding). -/
def normalizeRow (ctxPeriod : Str) (ctxYear : Option Int) (r : ContabilRow) :
    NormalizedBaseRow :=
  ⟨jsTrim ctxPeriod,
   ctxYear,
   if normalizeClassification (strOfOpt r.classification) = [] then none
   else some (normalizeClassification (strOfOpt r.classification)),
   r.code,
   if jsTrim (strOfOpt r.description) = [] then none
   else some (jsTrim (strOfOpt r.description)),
   match r.group with
   | some g => some g
   | none => some (groupFromClassification (normalizeClassification (strOfOpt r.classification))),
   jsOfMoney r.saldoAtual,
   jsOfMoney r.saldoAnterior,
   jsOfMoney r.debito,
   jsOfMoney r.credito,
   some r.rawLine⟩

/-- Replace only the `group` field of a normalized row (the single
mutation of the second pass). -/
def withGroup (rr : NormalizedBaseRow) (g : Group) : NormalizedBaseRow :=
  ⟨rr.period, rr.year, rr.classification, rr.code, rr.description, some g,
   rr.saldoAtual, rr.saldoAnterior, rr.debito, rr.credito, rr.rawLine⟩

/-- The second pass of `normalizeBase`: when `group` is unset or
`OUTROS`, infer it from the normalized description; all other fields
are untouched. -/
def adjustGroup (rr : NormalizedBaseRow) : NormalizedBaseRow :=
  if rr.group ≠ none ∧ rr.group ≠ some Group.OUTROS then rr
  else if normalizeText (strOfOpt rr.description) = "ATIVO".toList ∨
      normalizeText (strOfOpt rr.description) = "TOTAL ATIVO".toList ∨
      normalizeText (strOfOpt rr.description) = "ATIVO TOTAL".toList then
    withGroup rr Group.ATIVO
  else if normalizeText (strOfOpt rr.description) = "PASSIVO".toList ∨
      normalizeText (strOfOpt rr.description) = "TOTAL PASSIVO".toList ∨
      normalizeText (strOfOpt rr.description) = "PASSIVO TOTAL".toList then
    withGroup rr Group.PASSIVO
  else if normalizeText (strOfOpt rr.description) = "DRE".toList ∨
      strIncludes (normalizeText (strOfOpt rr.description)) "RESULTADO".toList = true ∨
      strIncludes (normalizeText (strOfOpt rr.description)) "DEMONSTRACAO".toList = true then
    withGroup rr Group.DRE
  else rr

/-- `normalizeBase` from `normalizeBase.ts`: one fresh record per
input row (first pass), then the element-wise group fallback (second
pass).  The input list is untouched, modelling that the source rows
are preserved for audit. -/
def normalizeBase (rows : List ContabilRow) (ctxPeriod : Str) (ctxYear : Option Int) :
    List NormalizedBaseRow :=
  (rows.map (normalizeRow ctxPeriod ctxYear)).map adjustGroup

lemma adjustGroup_frame (rr : NormalizedBaseRow) :
    (adjustGroup rr).period = rr.period ∧ (adjustGroup rr).year = rr.year ∧
    (adjustGroup rr).classification = rr.classification ∧
    (adjustGroup rr).code = rr.code ∧ (adjustGroup rr).description = rr.description ∧
    (adjustGroup rr).saldoAtual = rr.saldoAtual ∧
    (adjustGroup rr).saldoAnterior = rr.saldoAnterior ∧
    (adjustGroup rr).debito = rr.debito ∧ (adjustGroup rr).credito = rr.credito ∧
    (adjustGroup rr).rawLine = rr.rawLine := by
  unfold adjustGroup withGroup
  split_ifs <;>
    exact ⟨rfl, rfl, rfl, rfl, rfl, rfl, rfl, rfl, rfl, rfl⟩

/-- C9: `normalizeBase` emits exactly one row per input row, in input
order — output row `i` is a new record fully determined by input row
`i` — and on each output row the four monetary columns and `rawLine`
carry exactly the source row's values (`?? null` lifting included),
with `period` the trimmed context period and `year` the context year.
The embedding is a pure function of the input list, which models that
the source `ContabilRow`s are never mutated. -/
theorem claim_C9_normalizeBase_frame (rows : List ContabilRow) (p : Str) (y : Option Int) :
    (normalizeBase rows p y).length = rows.length ∧
    ∀ (i : Nat) (hi : i < (normalizeBase rows p y).length) (hr : i < rows.length),
      (normalizeBase rows p y).get ⟨i, hi⟩ = adjustGroup (normalizeRow p y (rows.get ⟨i, hr⟩)) ∧
      ((normalizeBase rows p y).get ⟨i, hi⟩).saldoAtual =
        jsOfMoney (rows.get ⟨i, hr⟩).saldoAtual ∧
      ((normalizeBase rows p y).get ⟨i, hi⟩).saldoAnterior =
        jsOfMoney (rows.get ⟨i, hr⟩).saldoAnterior ∧
      ((normalizeBase rows p y).get ⟨i, hi⟩).debito = jsOfMoney (rows.get ⟨i, hr⟩).debito ∧
      ((normalizeBase rows p y).get ⟨i, hi⟩).credito = jsOfMoney (rows.get ⟨i, hr⟩).credito ∧
      ((normalizeBase rows p y).get ⟨i, hi⟩).rawLine = some (rows.get ⟨i, hr⟩).rawLine ∧
      ((normalizeBase rows p y).get ⟨i, hi⟩).period = jsTrim p ∧
      ((normalizeBase rows p y).get ⟨i, hi⟩).year = y := by
  refine ⟨by simp [normalizeBase], ?_⟩
  intro i hi hr
  have hget : (normalizeBase rows p y).get ⟨i, hi⟩ =
      adjustGroup (normalizeRow p y (rows.get ⟨i, hr⟩)) := by
    unfold normalizeBase
    simp [List.get_eq_getElem, List.getElem_map]
  obtain ⟨f1, f2, -, -, -, f6, f7, f8, f9, f10⟩ :=
    adjustGroup_frame (normalizeRow p y (rows.get ⟨i, hr⟩))
  rw [hget]
  exact ⟨rfl, f6, f7, f8, f9, f10, f1, f2⟩

/-- A parsed row with a money object in `saldoAtual` and no group. -/
def c9row : ContabilRow :=
  ⟨'x' :: [], none, some ('7' :: []), some ('P' :: []), none,
   some ⟨'1' :: ',' :: '0' :: '0' :: [], 1⟩, none, none, none⟩

/-- Witness for C9: on the one-row input `[c9row]` the output has one
row whose `saldoAtual` is the same `{raw, value}` object, whose
`rawLine` is the source line, and whose `period`/`year` are the
injected context. -/
theorem claim_C9_normalizeBase_frame_witness :
    (normalizeBase (c9row :: []) ('P' :: []) (some 2024)).length = (c9row :: []).length ∧
    ((normalizeBase (c9row :: []) ('P' :: []) (some 2024)).get
        ⟨0, by simp [normalizeBase]⟩).saldoAtual =
      JSVal.jmoney ⟨'1' :: ',' :: '0' :: '0' :: [], 1⟩ ∧
    ((normalizeBase (c9row :: []) ('P' :: []) (some 2024)).get
        ⟨0, by simp [normalizeBase]⟩).rawLine = some ('x' :: []) ∧
    ((normalizeBase (c9row :: []) ('P' :: []) (some 2024)).get
        ⟨0, by simp [normalizeBase]⟩).period = 'P' :: [] ∧
    ((normalizeBase (c9row :: []) ('P' :: []) (some 2024)).get
        ⟨0, by simp [normalizeBase]⟩).year = some 2024 := by
  have h := (claim_C9_normalizeBase_frame (c9row :: []) ('P' :: []) (some 2024)).2 0
    (by simp [normalizeBase]) (by simp)
  refine ⟨(claim_C9_normalizeBase_frame (c9row :: []) ('P' :: []) (some 2024)).1, ?_, ?_, ?_, ?_⟩
  · exact h.2.1
  · exact h.2.2.2.2.2.1
  · exact (h.2.2.2.2.2.2.1).trans (by decide)
  · exact h.2.2.2.2.2.2.2

/-! The line parser `parseContabilRowsFromText` from
`contabilParser.ts`, embedded as a fold of a per-line step over the
trimmed nonempty lines of the input text.  The money-token regex
`\(?-?\d\x7b1,3\x7d(?:\.\d\x7b3\x7d)*,\d\x7b2\x7d\)?-?` and the
classification regexes are implemented as backtracking matchers with
JavaScript leftmost/greedy semantics. -/

/-- `text.split(/\r?\n/g)`: split into lines, one `\r?\n` separator at
a time (`\r` alone separates nothing). -/
def splitLinesAux : Str → Str → List Str
  | [], cur => cur.reverse :: []
  | '\r' :: '\n' :: rest, cur => cur.reverse :: splitLinesAux rest []
  | '\n' :: rest, cur => cur.reverse :: splitLinesAux rest []
  | c :: rest, cur => splitLinesAux rest (c :: cur)

/-- All lines of a text. -/
def splitLines (l : Str) : List Str := splitLinesAux l []

/-- The trimmed, nonempty lines fed to the parse loop. -/
def cleanLines (text : Str) : List Str :=
  ((splitLines text).map jsTrim).filter (fun l => !l.isEmpty)

/-- First replacement of `unglueMoneyTokens`: a space after `,dd` when
a digit follows (the lookahead is not consumed). -/
def unglue1 : Str → Str
  | ',' :: d1 :: d2 :: c :: rest =>
    if d1.isDigit && d2.isDigit && c.isDigit then
      ',' :: d1 :: d2 :: ' ' :: unglue1 (c :: rest)
    else ',' :: unglue1 (d1 :: d2 :: c :: rest)
  | c :: rest => c :: unglue1 rest
  | [] => []

/-- Second replacement of `unglueMoneyTokens`: a space after `)` when
a digit follows. -/
def unglue2 : Str → Str
  | ')' :: c :: rest =>
    if c.isDigit then ')' :: ' ' :: unglue2 (c :: rest) else ')' :: unglue2 (c :: rest)
  | c :: rest => c :: unglue2 rest
  | [] => []

/-- `unglueMoneyTokens` from `contabilParser.ts` (the final step is
`replace(/\s+/g, " ")` without trimming). -/
def unglueMoneyTokens (line : Str) : Str := collapseWs (unglue2 (unglue1 line))

/-- The cleaned, unglued form of a raw line at the top of the parse
loop. -/
def normLine (raw : Str) : Str := unglueMoneyTokens (cleanSpaces raw)

/-- Upper-cased cleaned line used by the header detectors. -/
def cleanUpper (line : Str) : Str := (cleanSpaces line).map jsUpperChar

/-- `,\d\x7b2\x7d` at the current position: the mandatory cents part of the
money-token regex. -/
def tryComma : Str → Option (Str × Str)
  | ',' :: a :: b :: rest =>
    if a.isDigit && b.isDigit then some (',' :: a :: b :: [], rest) else none
  | _ => none

/-- `(?:\.\d\x7b3\x7d)*,\d\x7b2\x7d` at the current position, greedy with
backtracking: consume another thousands group if possible and recurse,
otherwise match the cents here. -/
def tryTail : Str → Option (Str × Str)
  | '.' :: a :: b :: c :: rest =>
    if a.isDigit && b.isDigit && c.isDigit then
      match tryTail rest with
      | some (t, r) => some ('.' :: a :: b :: c :: t, r)
      | none => tryComma ('.' :: a :: b :: c :: rest)
    else tryComma ('.' :: a :: b :: c :: rest)
  | l => tryComma l

/-- `\d\x7b1,3\x7d(?:\.\d\x7b3\x7d)*,\d\x7b2\x7d` at the current position (greedy
integer part, backtracking down to one digit). -/
def matchCore : Str → Option (Str × Str)
  | a :: b :: c :: rest =>
    if a.isDigit && b.isDigit && c.isDigit then
      match tryTail rest with
      | some (t, r) => some (a :: b :: c :: t, r)
      | none =>
        match tryTail (c :: rest) with
        | some (t, r) => some (a :: b :: t, r)
        | none =>
          match tryTail (b :: c :: rest) with
          | some (t, r) => some (a :: t, r)
          | none => none
    else if a.isDigit && b.isDigit then
      match tryTail (c :: rest) with
      | some (t, r) => some (a :: b :: t, r)
      | none =>
        match tryTail (b :: c :: rest) with
        | some (t, r) => some (a :: t, r)
        | none => none
    else if a.isDigit then
      match tryTail (b :: c :: rest) with
      | some (t, r) => some (a :: t, r)
      | none => none
    else none
  | _ => none

/-- `-?` then the core (a leading `-` not followed by a core cannot
match otherwise). -/
def matchNeg : Str → Option (Str × Str)
  | '-' :: rest =>
    match matchCore rest with
    | some (t, r) => some ('-' :: t, r)
    | none => none
  | l => matchCore l

/-- The trailing `\)?-?` of the money-token regex (both optionals are
deterministic: nothing follows them). -/
def matchClose : Str → Str × Str
  | ')' :: '-' :: rest => (')' :: '-' :: [], rest)
  | ')' :: rest => (')' :: [], rest)
  | '-' :: rest => ('-' :: [], rest)
  | rest => ([], rest)

/-- One match of the money-token regex anchored at the current
position: `\(?` then `-?` core then `\)?-?`. -/
def matchMoneyAt (l : Str) : Option (Str × Str) :=
  match l with
  | '(' :: rest =>
    match matchNeg rest with
    | some (t, r) => some (('(' :: t) ++ (matchClose r).1, (matchClose r).2)
    | none => none
  | _ =>
    match matchNeg l with
    | some (t, r) => some (t ++ (matchClose r).1, (matchClose r).2)
    | none => none

/-- Global scan of the money-token regex (fuelled by the string
length; every step consumes at least one character). -/
def scanMoneyAux : Nat → Str → List Str
  | 0, _ => []
  | _ + 1, [] => []
  | fuel + 1, c :: rest =>
    match matchMoneyAt (c :: rest) with
    | some (t, r) => t :: scanMoneyAux fuel r
    | none => scanMoneyAux fuel rest

/-- `line.match(moneyTokenRe) ?? []`: all money tokens of a line, left
to right. -/
def scanMoney (l : Str) : List Str := scanMoneyAux l.length l

/-- `detectSectionHeader` from `contabilParser.ts`. -/
def detectSectionHeader (line : Str) : Option Group :=
  if cleanUpper line == "ATIVO".toList || strStartsWith (cleanUpper line) "ATIVO ".toList then
    some Group.ATIVO
  else if cleanUpper line == "PASSIVO".toList ||
      strStartsWith (cleanUpper line) "PASSIVO ".toList then
    some Group.PASSIVO
  else if cleanUpper line == "DRE".toList || strStartsWith (cleanUpper line) "DRE ".toList ||
      strIncludes (cleanUpper line) "DEMONSTRACAO DO RESULTADO".toList ||
      strIncludes (cleanUpper line) "DEMONSTRAÇÃO DO RESULTADO".toList ||
      strIncludes (cleanUpper line) "D.R.E".toList ||
      strIncludes (cleanUpper line) "DEMONSTRATIVO DO RESULTADO".toList then
    some Group.DRE
  else none

/-- `isHeaderLine` from `contabilParser.ts`. -/
def isHeaderLine (line : Str) : Bool :=
  (strIncludes (cleanUpper line) "CÓDIGO".toList && strIncludes (cleanUpper line) "DESCRI".toList
    && strIncludes (cleanUpper line) "SALDO".toList) ||
  (strIncludes (cleanUpper line) "CODIGO".toList && strIncludes (cleanUpper line) "DESCRI".toList
    && strIncludes (cleanUpper line) "SALDO".toList) ||
  strStartsWith (cleanUpper line) "EMPRESA".toList ||
  strStartsWith (cleanUpper line) "BALANCETE".toList ||
  strIncludes (cleanUpper line) "PÁGINA".toList ||
  strStartsWith (cleanUpper line) "C.N.P.J".toList ||
  strStartsWith (cleanUpper line) "CNPJ".toList ||
  strStartsWith (cleanUpper line) "PERÍODO".toList ||
  strStartsWith (cleanUpper line) "PERIODO".toList ||
  strStartsWith (cleanUpper line) "CONSOLIDADO".toList

/-- The two recognised balance-sheet column layouts. -/
inductive ColumnOrder where
  | SA_SANT_DEB_CRED
  | SANT_DEB_CRED_SA
deriving DecidableEq

/-- `indexOf("DÉBITO")` with the unaccented fallback. -/
def idxDeb (up : Str) : Int :=
  if 0 ≤ strIndexOf up "DÉBITO".toList then strIndexOf up "DÉBITO".toList
  else strIndexOf up "DEBITO".toList

/-- `indexOf("CRÉDITO")` with the unaccented fallback. -/
def idxCred (up : Str) : Int :=
  if 0 ≤ strIndexOf up "CRÉDITO".toList then strIndexOf up "CRÉDITO".toList
  else strIndexOf up "CREDITO".toList

/-- `detectColumnOrderFromHeader` from `contabilParser.ts`. -/
def detectColumnOrderFromHeader (line : Str) : Option ColumnOrder :=
  if !(strIncludes (cleanUpper line) "SALDO".toList &&
      (strIncludes (cleanUpper line) "ANTERIOR".toList ||
        strIncludes (cleanUpper line) "ATUAL".toList)) then none
  else if 0 ≤ strIndexOf (cleanUpper line) "ANTERIOR".toList ∧
      0 ≤ idxDeb (cleanUpper line) ∧ 0 ≤ idxCred (cleanUpper line) ∧
      0 ≤ strIndexOf (cleanUpper line) "ATUAL".toList then
    if strIndexOf (cleanUpper line) "ANTERIOR".toList < idxDeb (cleanUpper line) ∧
        idxDeb (cleanUpper line) < idxCred (cleanUpper line) ∧
        idxCred (cleanUpper line) < strIndexOf (cleanUpper line) "ATUAL".toList then
      some ColumnOrder.SANT_DEB_CRED_SA
    else if strIndexOf (cleanUpper line) "ATUAL".toList <
          strIndexOf (cleanUpper line) "ANTERIOR".toList ∧
        strIndexOf (cleanUpper line) "ANTERIOR".toList < idxDeb (cleanUpper line) ∧
        idxDeb (cleanUpper line) < idxCred (cleanUpper line) then
      some ColumnOrder.SA_SANT_DEB_CRED
    else none
  else none

/-- The last (up to) four successfully parsed money tokens
(`parsed.slice(-4)`). -/
def moneyTail (tokens : List Str) : List MoneyQ :=
  (tokens.filterMap parseMoneyBR).drop ((tokens.filterMap parseMoneyBR).length - 4)

/-- `mapMoneyTokens` from `contabilParser.ts`, as the tuple
`(saldoAtual, saldoAnterior, debito, credito)`. -/
def mapMoneyTokens (tokens : List Str) (order : ColumnOrder) :
    Option MoneyQ × Option MoneyQ × Option MoneyQ × Option MoneyQ :=
  match moneyTail tokens with
  | [] => (none, none, none, none)
  | m1 :: [] => (some m1, none, none, none)
  | m1 :: m2 :: [] =>
    if order = ColumnOrder.SANT_DEB_CRED_SA then (some m2, some m1, none, none)
    else (some m1, some m2, none, none)
  | m1 :: m2 :: m3 :: [] =>
    if order = ColumnOrder.SANT_DEB_CRED_SA then (none, some m1, some m2, some m3)
    else (some m1, some m2, some m3, none)
  | m1 :: m2 :: m3 :: m4 :: _ =>
    if order = ColumnOrder.SANT_DEB_CRED_SA then (some m4, some m1, some m2, some m3)
    else (some m1, some m2, some m3, some m4)

/-- Whether a string starts with a whitespace character. -/
def firstIsWs : Str → Bool
  | [] => false
  | c :: _ => jsWs c

/-- The leading digit run after optional whitespace
(`extractLeadingCode` candidate). -/
def lcDigits (s : Str) : Str := (s.dropWhile jsWs).takeWhile Char.isDigit

/-- What follows the leading digit run. -/
def lcAfter (s : Str) : Str := (s.dropWhile jsWs).drop (lcDigits s).length

/-- `extractLeadingCode` from `contabilParser.ts`:
`^\s*(\d\x7b1,6\x7d)\s+(.*)$` — since the digit run is contiguous, the
match succeeds exactly when the run has length 1–6 and whitespace
follows. -/
def extractLeadingCode (s : Str) : Option Str × Str :=
  if 1 ≤ (lcDigits s).length ∧ (lcDigits s).length ≤ 6 ∧ firstIsWs (lcAfter s) = true then
    (some (lcDigits s), jsTrim (lcAfter s))
  else (none, jsTrim s)

/-- The lookahead `(?=([123])(?:\.\d\x7b1,3\x7d)+)` of the fused-code
regex: it accepts exactly when a `1`/`2`/`3` is followed by a dot and
a digit. -/
def clsLookahead : Str → Bool
  | a :: '.' :: d :: _ => isRoot13 a && d.isDigit
  | _ => false

/-- The leading digit run of the cleaned input of
`splitFusedCodeClassification`. -/
def sfDigits (s : Str) : Str := (cleanSpaces s).takeWhile Char.isDigit

/-- Whether a dot plus the classification lookahead follows the code
digits. -/
def sfDotOk (s : Str) : Bool :=
  match (cleanSpaces s).drop (sfDigits s).length with
  | '.' :: rest => clsLookahead rest
  | _ => false

/-- `splitFusedCodeClassification` from `contabilParser.ts`:
`^(\d\x7b1,6\x7d)\.(?=([123])(?:\.\d\x7b1,3\x7d)+)(.*)$` on the cleaned
input (the digit run is contiguous, so the code group matches exactly
when the run has length 1–6 and is followed by the dot and the
lookahead). -/
def splitFusedCodeClassification (s : Str) : Option Str × Str :=
  if 1 ≤ (sfDigits s).length ∧ (sfDigits s).length ≤ 6 ∧ sfDotOk s = true then
    (some (sfDigits s),
     if jsTrim ((cleanSpaces s).drop ((sfDigits s).length + 1)) ≠ [] then
       jsTrim ((cleanSpaces s).drop ((sfDigits s).length + 1))
     else jsTrim ((cleanSpaces s).drop (sfDigits s).length))
  else (none, cleanSpaces s)

/-- The priority-ordered alternatives of one thousands-free group
`\.\d\x7b1,3\x7d` (longest digit take first). -/
def oneGroup (l : Str) : List (Str × Str) :=
  match l with
  | '.' :: rest =>
    (List.range (min 3 (rest.takeWhile Char.isDigit).length)).reverse.map
      (fun j => ('.' :: rest.take (j + 1), rest.drop (j + 1)))
  | _ => []

/-- The priority-ordered alternatives of `(?:\.\d\x7b1,3\x7d)+` (depth-first:
for each greedy first group, longer continuations first, then
stopping). -/
def groupsAltsAux : Nat → Str → List (Str × Str)
  | 0, _ => []
  | fuel + 1, l =>
    (oneGroup l).flatMap (fun p =>
      ((groupsAltsAux fuel p.2).map (fun q => (p.1 ++ q.1, q.2))) ++ ((p.1, p.2) :: []))

/-- All matches of `(?:\.\d\x7b1,3\x7d)+` at a position, in backtracking
priority order. -/
def groupsAlts (l : Str) : List (Str × Str) := groupsAltsAux l.length l

/-- All matches of a classification token `\d\x7b1,3\x7d(?:\.\d\x7b1,3\x7d)+` at
a position, in backtracking priority order. -/
def clsAlts (l : Str) : List (Str × Str) :=
  (List.range (min 3 (l.takeWhile Char.isDigit).length)).reverse.flatMap
    (fun j => (groupsAlts (l.drop (j + 1))).map (fun q => (l.take (j + 1) ++ q.1, q.2)))

/-- `^(\d\x7b1,3\x7d(?:\.\d\x7b1,3\x7d)+)\s+(.*)$`: the first alternative (in
priority order) followed by whitespace; the rest is what follows the
whitespace, trimmed. -/
def mStartFind (txt : Str) : Option (Str × Str) :=
  match (clsAlts txt).find? (fun p => firstIsWs p.2) with
  | some p => some (p.1, jsTrim p.2)
  | none => none

/-- JS `\w` (word character). -/
def isWordChar (c : Char) : Bool :=
  ('a' ≤ c && c ≤ 'z') || ('A' ≤ c && c ≤ 'Z') || c.isDigit || c == '_'

/-- The `\b` after a classification token: end of string or a non-word
character. -/
def wordBoundaryOk : Str → Bool
  | [] => true
  | c :: _ => !isWordChar c

/-- Search `\b(\d\x7b1,3\x7d(?:\.\d\x7b1,3\x7d)+)\b` left to right: at every
position whose predecessor is not a word character, try the
alternatives in priority order and keep the first one followed by a
boundary. -/
def clsSearch : Option Char → Str → Option Str
  | _, [] => none
  | prev, c :: rest =>
    if (match prev with | none => true | some d => !isWordChar d) = true then
      match (clsAlts (c :: rest)).find? (fun p => wordBoundaryOk p.2) with
      | some p => some p.1
      | none => clsSearch (some c) rest
    else clsSearch (some c) rest

/-- `txt.replace(cls, "")` with a plain-string pattern: remove the
first occurrence. -/
def removeFirstSub (txt pat : Str) : Str :=
  match strIndexOfAux pat txt 0 with
  | some i => txt.take i ++ txt.drop (i + pat.length)
  | none => txt

/-- `extractFirstClassification` from `contabilParser.ts`: the anchored
match first, then the free word-bounded search (removing the matched
string's first literal occurrence). -/
def extractFirstClassification (s : Str) : Option Str × Str :=
  match mStartFind (cleanSpaces s) with
  | some p => (some p.1, p.2)
  | none =>
    match clsSearch none (cleanSpaces s) with
    | some cls => (some cls, cleanSpaces (removeFirstSub (cleanSpaces s) cls))
    | none => (none, cleanSpaces s)

/-- The `^[123](?:\.|$)` guard of `inferGroupByClassification`. -/
def root13ok : Str → Bool
  | a :: [] => isRoot13 a
  | a :: '.' :: _ => isRoot13 a
  | _ => false

/-- `inferGroupByClassification` from `contabilParser.ts`. -/
def inferGroupByClassification (classification : Option Str) : Option Group :=
  match classification with
  | none => none
  | some c =>
    if c = [] then none
    else if root13ok (jsTrim c) = true then
      match jsTrim c with
      | '1' :: _ => some Group.ATIVO
      | '2' :: _ => some Group.PASSIVO
      | '3' :: _ => some Group.DRE
      | _ => none
    else none

/-- The `pendingTotalLine` buffer. -/
structure PendingTotal where
  line : Str
  code : Option Str
  saldoAtual : Option MoneyQ
  saldoAnterior : Option MoneyQ
  debito : Option MoneyQ
  credito : Option MoneyQ
deriving DecidableEq

/-- The loop state of `parseContabilRowsFromText`. -/
structure ParseState where
  currentGroup : Group
  columnOrder : ColumnOrder
  pending : Option PendingTotal
  rows : List ContabilRow
deriving DecidableEq

/-- The initial loop state (`OUTROS`, `SA_SANT_DEB_CRED`, no pending,
no rows). -/
def initState : ParseState := ⟨Group.OUTROS, ColumnOrder.SA_SANT_DEB_CRED, none, []⟩

/-- The group name interpolated into `TOTAL ${section}`. -/
def groupName : Group → Str
  | Group.ATIVO => "ATIVO".toList
  | Group.PASSIVO => "PASSIVO".toList
  | Group.DRE => "DRE".toList
  | Group.OUTROS => "OUTROS".toList

/-- The row emitted for a pending total line when a section header
arrives: tagged with the header's group and the synthesized
`TOTAL ${section}` description, no classification. -/
def flushRow (pt : PendingTotal) (g : Group) : ContabilRow :=
  ⟨pt.line, some g, pt.code, some ("TOTAL ".toList ++ groupName g), none,
   pt.saldoAtual, pt.saldoAnterior, pt.debito, pt.credito⟩

/-- The row emitted for a pending total line left over at end of
input: group `OUTROS`, no description, no classification. -/
def eofRow (pt : PendingTotal) : ContabilRow :=
  ⟨pt.line, some Group.OUTROS, pt.code, none, none,
   pt.saldoAtual, pt.saldoAnterior, pt.debito, pt.credito⟩

/-- The text before the first money token of the line (`line.slice(0,
line.indexOf(firstMoneyToken))`, or the whole line when there is no
token). -/
def preRaw (line : Str) : Str :=
  match scanMoney line with
  | [] => line
  | t0 :: _ =>
    match strIndexOfAux t0 line 0 with
    | some i => line.take i
    | none => line

/-- The cleaned pre-text, with the fused `COD.CLASSIF` split applied
when both a code and a rest were found. -/
def preCleanOf (line : Str) : Str :=
  if (splitFusedCodeClassification (cleanSpaces (preRaw line))).1.isSome = true ∧
      (splitFusedCodeClassification (cleanSpaces (preRaw line))).2 ≠ [] then
    ((splitFusedCodeClassification (cleanSpaces (preRaw line))).1.getD []) ++
      (' ' :: (splitFusedCodeClassification (cleanSpaces (preRaw line))).2)
  else cleanSpaces (preRaw line)

/-- The group assigned to an ordinary emitted row: the current section
when known, otherwise the classification-inferred group, otherwise the
current (`OUTROS`) group. -/
def rowGroup (cur : Group) (classification : Option Str) : Group :=
  if cur ≠ Group.OUTROS then cur
  else
    match inferGroupByClassification classification with
    | some gg => gg
    | none => cur

/-- The money-line tail of the loop body: buffer the line as
`pendingTotalLine` (overwriting any previous buffer) when the group is
still `OUTROS`, a code but no classification was found, the
description is empty or repeats the code, and the line has at least
four money tokens; otherwise emit an ordinary row. -/
def stepBody2 (st : ParseState) (line : Str) (sa sant deb cred : Option MoneyQ)
    (code : Option Str) (classification : Option Str) (description : Str) : ParseState :=
  if st.currentGroup = Group.OUTROS ∧ code.isSome = true ∧ classification = none ∧
      (description = [] ∨ code = some description) ∧ 4 ≤ (scanMoney line).length then
    ⟨st.currentGroup, st.columnOrder, some ⟨line, code, sa, sant, deb, cred⟩, st.rows⟩
  else
    ⟨st.currentGroup, st.columnOrder, st.pending,
     st.rows ++ ((⟨line, some (rowGroup st.currentGroup classification), code,
       (if description = [] then none else some description), classification,
       sa, sant, deb, cred⟩ : ContabilRow) :: [])⟩

/-- The money-line part of the loop body: map the tokens to columns,
extract code, classification and description from the pre-text, and
dispatch. -/
def stepBody (st : ParseState) (line : Str) : ParseState :=
  match mapMoneyTokens (scanMoney line) st.columnOrder with
  | (sa, sant, deb, cred) =>
    match extractFirstClassification (extractLeadingCode (preCleanOf line)).2 with
    | (classification, descRest) =>
      stepBody2 st line sa sant deb cred (extractLeadingCode (preCleanOf line)).1
        classification (cleanSpaces descRest)

/-- One iteration of the parse loop on a raw line: column-order
headers first, then section headers (flushing the pending total line),
then header-noise and too-few-token skips, then the money-line body. -/
def stepLine (st : ParseState) (raw : Str) : ParseState :=
  match detectColumnOrderFromHeader (normLine raw) with
  | some ord => ⟨st.currentGroup, ord, st.pending, st.rows⟩
  | none =>
    match detectSectionHeader (normLine raw) with
    | some g =>
      match st.pending with
      | some pt => ⟨g, st.columnOrder, none, st.rows ++ (flushRow pt g :: [])⟩
      | none => ⟨g, st.columnOrder, none, st.rows⟩
    | none =>
      if isHeaderLine (normLine raw) = true then st
      else if (scanMoney (normLine raw)).length < 2 then st
      else stepBody st (normLine raw)

/-- The state after the whole loop. -/
def parseFold (text : Str) : ParseState := (cleanLines text).foldl stepLine initState

/-- The final row list: the loop's rows plus the end-of-input flush of
a still-pending total line. -/
def eofFlush (st : ParseState) : List ContabilRow :=
  st.rows ++
    (match st.pending with
     | some pt => eofRow pt :: []
     | none => [])

/-- `parseContabilRowsFromText` from `contabilParser.ts` (rows and
warnings). -/
def parseContabilRowsFromText (text : Str) : List ContabilRow × List Str :=
  if jsTrim text = [] then ([], "Texto vazio extraído do PDF.".toList :: [])
  else
    (eofFlush (parseFold text),
     if eofFlush (parseFold text) = [] then
       "Nenhuma linha contábil com valores foi detectada no texto.".toList :: []
     else [])

/-- First pending-qualifying line of the C7 counterexample. -/
def c7line1 : Str := "7 7 1,00 2,00 3,00 4,00".toList

/-- Second pending-qualifying line of the C7 counterexample. -/
def c7line2 : Str := "8 8 1,00 2,00 3,00 4,00".toList

/-- Two pending-qualifying lines followed by the `ATIVO` section
header. -/
def c7text : Str := c7line1 ++ ('\n' :: []) ++ c7line2 ++ ('\n' :: []) ++ "ATIVO".toList

/-- C7 counterexample: the first line is buffered as
`pendingTotalLine`, but the second qualifying line overwrites the
buffer without emitting anything, and the final output contains only
the second line (as `TOTAL ATIVO`) — the first buffered line is
silently dropped, refuting that every buffered line is emitted exactly
once. -/
theorem claim_C7_counterexample :
    ((stepLine initState c7line1).pending).map (fun pt => pt.line) = some c7line1 ∧
    ((stepLine (stepLine initState c7line1) c7line2).pending).map (fun pt => pt.line) =
      some c7line2 ∧
    (stepLine (stepLine initState c7line1) c7line2).rows = [] ∧
    (parseContabilRowsFromText c7text).1.map (fun r => r.rawLine) = c7line2 :: [] ∧
    c7line1 ≠ c7line2 := by
  refine ⟨by decide, by decide, by decide, by decide, by decide⟩

/-- C7 (amended): the MOST RECENTLY buffered pending total line is
emitted exactly once and never dropped — when a section-header line
arrives (and the line is not a column-order header), the step emits
the buffered line as one row tagged with the header's group and the
synthesized `TOTAL <group>` description and clears the buffer; and on
a nonempty text whose final loop state still holds a pending line, the
output is the loop's rows plus exactly one final `OUTROS`-group,
description-less row for it.  (An EARLIER buffered line can be
overwritten and dropped, per the counterexample.) -/
theorem claim_C7_pending_flush :
    (∀ (st : ParseState) (raw : Str) (g : Group) (pt : PendingTotal),
      detectColumnOrderFromHeader (normLine raw) = none →
      detectSectionHeader (normLine raw) = some g →
      st.pending = some pt →
      stepLine st raw = ⟨g, st.columnOrder, none, st.rows ++ (flushRow pt g :: [])⟩) ∧
    (∀ text : Str, jsTrim text ≠ [] →
      ∀ pt : PendingTotal, (parseFold text).pending = some pt →
      (parseContabilRowsFromText text).1 = (parseFold text).rows ++ (eofRow pt :: [])) := by
  constructor
  · intro st raw g pt h1 h2 h3
    unfold stepLine
    rw [h1]
    simp only []
    rw [h2]
    simp only []
    rw [h3]
  · intro text htext pt hp
    unfold parseContabilRowsFromText
    rw [if_neg htext]
    show eofFlush (parseFold text) = _
    unfold eofFlush
    rw [hp]

/-- An arbitrary pending buffer used by the C7 witness. -/
def c7pt : PendingTotal := ⟨"1 0,00".toList, some ('1' :: []), none, none, none, none⟩

/-- Witness for C7: a state holding `c7pt` steps over the line `ATIVO`
into the flushed row, and the single-line text `c7line1` (which ends
with a pending buffer) emits exactly its end-of-input `OUTROS` row. -/
theorem claim_C7_pending_flush_witness :
    stepLine ⟨Group.OUTROS, ColumnOrder.SA_SANT_DEB_CRED, some c7pt, []⟩ "ATIVO".toList =
      ⟨Group.ATIVO, ColumnOrder.SA_SANT_DEB_CRED, none,
        flushRow c7pt Group.ATIVO :: []⟩ ∧
    (parseContabilRowsFromText c7line1).1 =
      (parseFold c7line1).rows ++
        (eofRow (((parseFold c7line1).pending).get (by decide)) :: []) := by
  constructor
  · exact claim_C7_pending_flush.1
      ⟨Group.OUTROS, ColumnOrder.SA_SANT_DEB_CRED, some c7pt, []⟩ "ATIVO".toList
      Group.ATIVO c7pt (by decide) (by decide) rfl
  · exact claim_C7_pending_flush.2 c7line1 (by decide) _ (Option.some_get _).symm

end PriceTax
